import Mathlib

set_option maxHeartbeats 1000000
set_option maxRecDepth 8000

/-!
Verification of the incremental iOS→Android synchronization engine
(`scripts/sync_projects.py` and `scripts/convert_project.py`) against its
natural-language specification.

Modeling conventions:
* Python strings are Lean `String`s, Python `dict`s are ordered association
  lists `List (String × String)` (first-match lookup; assignment replaces the
  first binding in place or appends, deletion removes the binding — the same
  observable behaviour as a Python dict, whose keys are unique).
* The iOS source tree is the list of `(relative path, file content)` pairs
  produced by the `rglob` enumeration and exclusion filter of
  `detect_changes` (sync_projects.py lines 119-127); the Android target tree
  is an association list from relative target path to file content.
* The MD5 checksum (`get_file_checksum`, sync_projects.py line 75) is an
  arbitrary function `md5 : String → String` passed as a parameter; no claim
  depends on anything but equality of digests.
* The regular-expression substitutions of the rewrite pipeline are executed
  by a small matcher covering exactly the pattern forms used by the two rule
  tables: literal characters, `\b` word boundaries, and the single-group
  greedy captures `(\w+)` and `([^)]+)`. Word characters are modeled as
  ASCII `[A-Za-z0-9_]`, which agrees with Python on the ASCII source text
  the tool processes. `re.sub` scans left to right, replaces non-overlapping
  leftmost matches and continues after each match; `re.search` reports
  whether a match exists at any position.
* File-system writes and deletions are recorded as an `Event` trace, so
  "the run performs zero writes" is `events = []`. `apply_changeE` is the
  same translation of `apply_change` with the fallibility of each I/O call
  (reading a source file, reading or writing a target file) made explicit
  in the `Except` monad; the plain `apply_change` is the run in which every
  I/O call succeeds.
-/

/-! ## Ordered association lists (Python dicts) -/

/-- First-match lookup, Python `d.get(k)` / `d[k]`. -/
def dget : List (String × String) → String → Option String
  | [], _ => none
  | (a, b) :: t, k => if a = k then some b else dget t k

/-- Python `d[k] = v`: replace the binding in place, else append. -/
def dset : List (String × String) → String → String → List (String × String)
  | [], k, v => [(k, v)]
  | (a, b) :: t, k, v => if a = k then (k, v) :: t else (a, b) :: dset t k v

/-- Python `del d[k]` (a no-op when the key is absent; callers guard it). -/
def ddel : List (String × String) → String → List (String × String)
  | [], _ => []
  | (a, b) :: t, k => if a = k then ddel t k else (a, b) :: ddel t k

/-- The keys of an association list, Python `d.keys()`. -/
def dkeys (l : List (String × String)) : List String := l.map (·.1)

/-- Build a dict from a list of pairs, later values overwriting earlier
ones, as in the `current_files[rel_path] = …` loop of `detect_changes`. -/
def dictOfList (items : List (String × String)) : List (String × String) :=
  items.foldl (fun d kv => dset d kv.1 kv.2) []

/-! ## String helpers mirroring the Python standard library -/

/-- ASCII lowering of one character, as `str.lower` does on ASCII text. -/
def lowerChar (c : Char) : Char :=
  if 'A' ≤ c ∧ c ≤ 'Z' then Char.ofNat (c.toNat + 32) else c

/-- Python `s.lower()` (ASCII). -/
def lowerS (s : String) : String := ⟨s.data.map lowerChar⟩

def strContainsL (needle : List Char) : List Char → Bool
  | [] => decide (needle = [])
  | x :: xs => needle.isPrefixOf (x :: xs) || strContainsL needle xs

/-- Python `needle in hay` for strings. -/
def strContains (hay needle : String) : Bool := strContainsL needle.data hay.data

/-- Python `s.endswith(suf)`. -/
def strEndsWith (s suf : String) : Bool := suf.data.isSuffixOf s.data

def replaceAux (pat rep : List Char) : Nat → List Char → List Char
  | _, [] => []
  | 0, s => s
  | fuel + 1, x :: xs =>
    if !pat.isEmpty && pat.isPrefixOf (x :: xs) then
      rep ++ replaceAux pat rep fuel (List.drop pat.length (x :: xs))
    else
      x :: replaceAux pat rep fuel xs

/-- Python `s.replace(pat, rep)`: all non-overlapping occurrences, left to
right (our patterns are never empty). -/
def replaceAllS (s pat rep : String) : String :=
  ⟨replaceAux pat.data rep.data s.data.length s.data⟩

def lastIdxAux (c : Char) : List Char → Nat → Option Nat → Option Nat
  | [], _, acc => acc
  | x :: xs, i, acc => lastIdxAux c xs (i + 1) (if x = c then some i else acc)

/-- Index of the last occurrence of `c`, Python `s.rfind(c)` as an `Option`. -/
def lastIdxOf (c : Char) (l : List Char) : Option Nat := lastIdxAux c l 0 none

/-- `pathlib.Path(p).name`: the component after the last `/`. -/
def pname (p : String) : String :=
  ⟨(p.data.reverse.takeWhile (fun c => c ≠ '/')).reverse⟩

/-- `pathlib.Path(p).stem` (CPython: drop the suffix `name[i:]` when the last
dot sits at an index `i` with `0 < i < len(name) - 1`). -/
def pstem (p : String) : String :=
  let n := (pname p).data
  match lastIdxOf '.' n with
  | some i => if 0 < i ∧ i < n.length - 1 then ⟨n.take i⟩ else ⟨n⟩
  | none => ⟨n⟩

/-- Python `s.rsplit('/', 1)[0]`: everything before the last `/`, or the
whole string when there is none. -/
def rsplitHead (s : String) : String :=
  match lastIdxOf '/' s.data with
  | some i => ⟨s.data.take i⟩
  | none => s

/-! ## The regular-expression subset used by the rewrite rule tables -/

/-- One pattern element: a literal character, a `\b` word boundary, or one
of the two capture groups `(\w+)` and `([^)]+)` (each rule table uses at
most one capture group per pattern). -/
inductive PElem where
  | lit : Char → PElem
  | bnd : PElem
  | capWord : PElem
  | capNotRP : PElem
deriving DecidableEq

/-- `\w` for the ASCII text this tool processes. -/
def isWordChar (c : Char) : Bool :=
  ('a' ≤ c && c ≤ 'z') || ('A' ≤ c && c ≤ 'Z') || ('0' ≤ c && c ≤ '9') || c = '_'

/-- Try to match a pattern at the start of `s`; `prev` is the character just
before the current position (for `\b`). On success returns
`(capture, consumed text, remainder)`. The captures are greedy; in both
tables a capture group is followed by end of pattern or by a literal that is
not a member of the captured class, so maximal munch is exact. -/
def matchP : List PElem → Option Char → List Char → Option (List Char × List Char × List Char)
  | [], _, s => some ([], [], s)
  | PElem.lit c :: es, _, x :: xs =>
    if x = c then
      match matchP es (some x) xs with
      | some (cap, con, rest) => some (cap, x :: con, rest)
      | none => none
    else none
  | PElem.lit _ :: _, _, [] => none
  | PElem.bnd :: es, prev, s =>
    let pw := match prev with | some c => isWordChar c | none => false
    let nw := match s with | x :: _ => isWordChar x | [] => false
    if pw ≠ nw then matchP es prev s else none
  | PElem.capWord :: es, _, s =>
    let w := s.takeWhile isWordChar
    if w.isEmpty then none
    else
      match matchP es (some (w.getLastD ' ')) (s.dropWhile isWordChar) with
      | some (_, con, rest) => some (w, w ++ con, rest)
      | none => none
  | PElem.capNotRP :: es, _, s =>
    let w := s.takeWhile (fun c => c ≠ ')')
    if w.isEmpty then none
    else
      match matchP es (some (w.getLastD ' ')) (s.dropWhile (fun c => c ≠ ')')) with
      | some (_, con, rest) => some (w, w ++ con, rest)
      | none => none

/-- One replacement element: a literal character or the back-reference `\1`. -/
inductive RElem where
  | rc : Char → RElem
  | ref : RElem
deriving DecidableEq

def emitRepl (r : List RElem) (cap : List Char) : List Char :=
  r.foldr (fun e acc => match e with | RElem.rc c => c :: acc | RElem.ref => cap ++ acc) []

/-- The scan of `re.sub`: at each position try the pattern; on a match emit
the replacement and continue after the consumed text, otherwise copy one
character. `fuel` starts at the string length, which suffices because every
match of the patterns in the tables consumes at least one character. -/
def substAux (p : List PElem) (r : List RElem) : Nat → Option Char → List Char → List Char
  | _, _, [] => []
  | 0, _, s => s
  | fuel + 1, prev, x :: xs =>
    match matchP p prev (x :: xs) with
    | some (cap, con, rest) =>
      if con.isEmpty then x :: substAux p r fuel (some x) xs
      else emitRepl r cap ++ substAux p r fuel (some (con.getLastD ' ')) rest
    | none => x :: substAux p r fuel (some x) xs

/-- `re.sub(p, r, s)` for the pattern subset. -/
def substOne (p : List PElem) (r : List RElem) (s : List Char) : List Char :=
  substAux p r s.length none s

/-- `re.search(p, s) is not None`: a match exists at some position
(including the end-of-string position). -/
def searchP (p : List PElem) : Option Char → List Char → Bool
  | prev, [] => (matchP p prev []).isSome
  | prev, x :: xs => (matchP p prev (x :: xs)).isSome || searchP p (some x) xs

/-- `\bw\b` for a word `w`. -/
def wordPat (w : String) : List PElem :=
  PElem.bnd :: (w.data.map PElem.lit) ++ [PElem.bnd]

def litPat (s : String) : List PElem := s.data.map PElem.lit

def litRep (s : String) : List RElem := s.data.map RElem.rc

/-- Apply an ordered rule table, one full `re.sub` pass per rule. -/
def applyRules (rules : List (List PElem × List RElem)) (s : List Char) : List Char :=
  rules.foldl (fun acc pr => substOne pr.1 pr.2 acc) s

/-! ## Shared data model (sync_projects.py lines 19-36) -/

structure FileChange where
  ios_path : String
  android_path : Option String
  change_type : String
  old_checksum : Option String
  new_checksum : Option String
deriving DecidableEq

structure SyncState where
  last_sync_date : String
  ios_commit : Option String
  ios_path : String
  android_path : String
  package_name : String
  file_mapping : List (String × String)
  checksums : List (String × String)
deriving DecidableEq

/-- A mutation of the Android target tree performed by `apply_change`. -/
inductive Event where
  | wrote : String → String → Event
  | removed : String → Event
deriving DecidableEq

namespace sync_projects

/-- The rule table of `convert_swift_to_kotlin` in sync_projects.py
lines 196-205, in source order. -/
def sync_rules : List (List PElem × List RElem) :=
  [ (wordPat "let", litRep "val"),
    (wordPat "var", litRep "var"),
    (wordPat "func", litRep "fun"),
    (wordPat "nil", litRep "null"),
    (wordPat "self", litRep "this"),
    (wordPat "struct", litRep "data class"),
    (wordPat "enum", litRep "enum class"),
    (wordPat "protocol", litRep "interface"),
    (wordPat "Bool", litRep "Boolean"),
    (litPat "??", litRep "?:"),
    (litPat "-> Void", litRep ": Unit"),
    (litPat "-> " ++ [PElem.capWord], [RElem.rc ':', RElem.rc ' ', RElem.ref]),
    ([PElem.lit '\\', PElem.lit '(', PElem.capNotRP, PElem.lit ')'],
      [RElem.rc '$', RElem.rc '\x7b', RElem.ref, RElem.rc '\x7d']),
    (litPat ".count" ++ [PElem.bnd], litRep ".size"),
    (litPat ".isEmpty" ++ [PElem.bnd], litRep ".isEmpty()"),
    (litPat ".append(", litRep ".add("),
    (litPat "print(", litRep "println(") ]

/-- `convert_swift_to_kotlin` of sync_projects.py lines 191-210: the plain
substitution fold; this version has no advisory-marker pass. -/
def convert_swift_to_kotlin (swift_content : String) : String :=
  ⟨applyRules sync_rules swift_content.data⟩

/-- `classify_file`, sync_projects.py lines 167-188. -/
def classify_file (filepath : String) (content : String) : String :=
  let path_lower := lowerS filepath
  let name := lowerS (pstem filepath)
  if strContains path_lower "test" || strEndsWith name "tests" || strEndsWith name "test" then "test"
  else if strContains name "viewmodel" || strContains name "vm" then "viewmodel"
  else if strContains content "View" && strContains content "body:" then "view"
  else if strContains content "UIViewController" then "view"
  else if strContains path_lower "model" || (strContains content "struct" && strContains content "Codable") then "model"
  else if strContains path_lower "service" || strContains path_lower "api" || strContains path_lower "network" then "service"
  else if strContains path_lower "extension" then "extension"
  else if strContains path_lower "util" || strContains path_lower "helper" then "utility"
  else "other"

/-- `determine_android_path`, sync_projects.py lines 213-229. -/
def determine_android_path (ios_path file_type package_name : String) : String :=
  let pkg_path := replaceAllS package_name "." "/"
  let filename := pstem ios_path ++ ".kt"
  let dir_path :=
    if file_type = "model" then "app/src/main/java/" ++ pkg_path ++ "/model"
    else if file_type = "viewmodel" then "app/src/main/java/" ++ pkg_path ++ "/viewmodel"
    else if file_type = "view" then "app/src/main/java/" ++ pkg_path ++ "/ui/screens"
    else if file_type = "service" then "app/src/main/java/" ++ pkg_path ++ "/data/repository"
    else if file_type = "extension" then "app/src/main/java/" ++ pkg_path ++ "/util"
    else if file_type = "utility" then "app/src/main/java/" ++ pkg_path ++ "/util"
    else "app/src/main/java/" ++ pkg_path
  dir_path ++ "/" ++ filename

/-- The body of the modified/added loop of `detect_changes` (sync_projects.py
lines 130-151) for one current-file entry `(rel_path, checksum)`: absent from
`state.checksums` gives an `added` change with `android_path = None`; a
differing stored checksum gives a `modified` change carrying the mapping
entry; a matching checksum contributes nothing. -/
def detect_entry (state : SyncState) (rc : String × String) : Option FileChange :=
  match dget state.checksums rc.1 with
  | none => some (FileChange.mk rc.1 none "added" none (some rc.2))
  | some old =>
    if old ≠ rc.2 then
      some (FileChange.mk rc.1 (dget state.file_mapping rc.1) "modified" (some old) (some rc.2))
    else none

/-- `detect_changes`, sync_projects.py lines 114-164, taking the enumerated
and exclusion-filtered `(relative path, content)` list as input; `md5` is
`get_file_checksum` applied to the file content. -/
def detect_changes (md5 : String → String) (iosFiles : List (String × String))
    (state : SyncState) : List FileChange :=
  let current_files := dictOfList (iosFiles.map (fun pc => (pc.1, md5 pc.2)))
  let part1 := current_files.filterMap (detect_entry state)
  let part2 := (state.checksums.filter (fun rc => !(dget current_files rc.1).isSome)).map
    (fun rc => FileChange.mk rc.1 (dget state.file_mapping rc.1) "deleted" (some rc.2) none)
  part1 ++ part2

/-- The first half of the conflict wrapper f-string of `apply_change`
(sync_projects.py lines 285-297). -/
def conflict_head : String :=
  "// <<<<<<< ANDROID (local)\n// The following is the existing Android code.\n// Review and merge with the iOS changes below.\n// =======\n\n"

/-- The middle of the conflict wrapper f-string. -/
def conflict_mid : String :=
  "\n\n// >>>>>>> iOS (incoming)\n// The following is the converted iOS code.\n// =======\n\n"

/-- The conflict-delimited output of `apply_change` lines 285-297: the
existing target content followed by the freshly generated content. -/
def conflictWrap (old_content kotlin_content : String) : String :=
  conflict_head ++ old_content ++ conflict_mid ++ kotlin_content ++ "\n"

/-- The target path used by `apply_change` lines 260-264: the `android_path`
carried by the change when truthy, else `determine_android_path`. -/
def target_rel_of (change : FileChange) (file_type package_name : String) : String :=
  match change.android_path with
  | some s => if s = "" then determine_android_path change.ios_path file_type package_name else s
  | none => determine_android_path change.ios_path file_type package_name

/-- The freshly generated content of `apply_change` lines 269-274: the
package declaration derived from the target path, the provenance comment,
and the rewritten text. -/
def generated_content (change_ios_path target_rel swift_content : String) : String :=
  let pkg := replaceAllS (rsplitHead (replaceAllS target_rel "app/src/main/java/" "")) "/" "."
  "package " ++ pkg ++ "\n\n// TODO: VERIFY - Synced from " ++ change_ios_path ++ "\n\n" ++
    convert_swift_to_kotlin swift_content

/-- The `deleted` branch of `apply_change` (sync_projects.py lines 236-245):
when the change carries a truthy mapped target path and a file exists there,
unlink it (or only report under dry-run); always return `None`. -/
def apply_change_delete (change : FileChange) (tree : List (String × String))
    (dry_run : Bool) : Option String × List (String × String) × List Event :=
  match change.android_path with
  | some ap =>
    if ap = "" then (none, tree, [])
    else if (dget tree ap).isSome then
      if dry_run then (none, tree, [])
      else (none, ddel tree ap, [Event.removed ap])
    else (none, tree, [])
  | none => (none, tree, [])

/-- The added/modified branch of `apply_change` (sync_projects.py lines
252-303) once the source content has been read: classify (skipping tests),
choose the target path, generate the content, and write — wrapping in
conflict delimiters exactly when the change is `modified` and the existing
target content differs from the freshly generated content. -/
def apply_change_convert (change : FileChange) (tree : List (String × String))
    (package_name : String) (dry_run : Bool) (swift_content : String) :
    Option String × List (String × String) × List Event :=
  let file_type := classify_file change.ios_path swift_content
  if file_type = "test" then (none, tree, [])
  else
    let target_rel := target_rel_of change file_type package_name
    let gen := generated_content change.ios_path target_rel swift_content
    if dry_run then (some target_rel, tree, [])
    else
      let content :=
        if change.change_type = "modified" then
          match dget tree target_rel with
          | some old_content => if old_content ≠ gen then conflictWrap old_content gen else gen
          | none => gen
        else gen
      (some target_rel, dset tree target_rel content, [Event.wrote target_rel content])

/-- `apply_change`, sync_projects.py lines 232-303, in the run where every
I/O call succeeds. Returns the Python return value, the updated target
tree, and the trace of writes/deletions. A missing source file
(`source.exists()` false) returns `None` with no action. -/
def apply_change (change : FileChange) (iosFiles : List (String × String))
    (tree : List (String × String)) (package_name : String) (dry_run : Bool) :
    Option String × List (String × String) × List Event :=
  if change.change_type = "deleted" then
    apply_change_delete change tree dry_run
  else
    match dget iosFiles change.ios_path with
    | none => (none, tree, [])
    | some swift_content =>
      apply_change_convert change tree package_name dry_run swift_content

/-- The result of the per-change loop of `sync_projects` lines 355-376:
either aborted by an interactive `q`, or done with the final tree, event
trace, `new_mapping` and `new_checksums`. -/
inductive LoopRes where
  | abort : List (String × String) → List Event → LoopRes
  | done : List (String × String) → List Event → List (String × String) →
      List (String × String) → LoopRes
deriving DecidableEq

/-- The `new_mapping`/`new_checksums` updates of the loop body
(sync_projects.py lines 366-376), applied unless dry-run: a `deleted` change
removes both entries; otherwise a truthy `result` sets the mapping and a
truthy `new_checksum` sets the checksum (`if result:` and
`if change.new_checksum:` are Python truthiness tests, false for `None` and
for the empty string). -/
def stepUpdates (dry_run : Bool) (change : FileChange) (result : Option String)
    (nm nc : List (String × String)) : List (String × String) × List (String × String) :=
  if dry_run then (nm, nc)
  else if change.change_type = "deleted" then
    (ddel nm change.ios_path, ddel nc change.ios_path)
  else
    let nm' := match result with
      | some res => if res = "" then nm else dset nm change.ios_path res
      | none => nm
    let nc' := match change.new_checksum with
      | some ck => if ck = "" then nc else dset nc change.ios_path ck
      | none => nc
    (nm', nc')

/-- One iteration body of the loop (sync_projects.py lines 364-376): apply
the change, then update `new_mapping`/`new_checksums` via `stepUpdates`. -/
def sync_step (iosFiles : List (String × String)) (package_name : String) (dry_run : Bool)
    (change : FileChange) (tree : List (String × String)) (events : List Event)
    (nm nc : List (String × String)) :
    List (String × String) × List Event × List (String × String) × List (String × String) :=
  let r := apply_change change iosFiles tree package_name dry_run
  let u := stepUpdates dry_run change r.1 nm nc
  (r.2.1, events ++ r.2.2, u.1, u.2)

/-- The per-change loop of `sync_projects` lines 355-376. When interactive
and not dry-run, each iteration consumes one lowered response: `q` aborts
the whole run, anything other than `y` skips the change. -/
def sync_loop (iosFiles : List (String × String)) (package_name : String)
    (dry_run interactive : Bool) (resp : Nat → String) :
    Nat → List FileChange → List (String × String) → List Event →
    List (String × String) → List (String × String) → LoopRes
  | _, [], tree, events, nm, nc => LoopRes.done tree events nm nc
  | i, change :: rest, tree, events, nm, nc =>
    if interactive && !dry_run then
      let response := lowerS (resp i)
      if response = "q" then LoopRes.abort tree events
      else if response ≠ "y" then
        sync_loop iosFiles package_name dry_run interactive resp (i + 1) rest tree events nm nc
      else
        let s := sync_step iosFiles package_name dry_run change tree events nm nc
        sync_loop iosFiles package_name dry_run interactive resp (i + 1) rest s.1 s.2.1 s.2.2.1 s.2.2.2
    else
      let s := sync_step iosFiles package_name dry_run change tree events nm nc
      sync_loop iosFiles package_name dry_run interactive resp (i + 1) rest s.1 s.2.1 s.2.2.1 s.2.2.2

/-- The `--files` filter of `sync_projects` lines 329-330 (`f in c.ios_path`
is a substring test). -/
def filter_changes (files : Option (List String)) (changes : List FileChange) : List FileChange :=
  match files with
  | some fs => changes.filter (fun c => fs.any (fun f => strContains c.ios_path f))
  | none => changes

/-- The observable outcome of one `sync_projects` run: the final target
tree, the trace of target-tree mutations, and the state snapshot passed to
`save_sync_state` (`none` when `save_sync_state` was not called, so the
persisted sync-state file is unchanged). -/
structure RunOut where
  tree : List (String × String)
  events : List Event
  saved : Option SyncState
deriving DecidableEq

/-- `sync_projects`, sync_projects.py lines 306-392: detect changes, filter,
return early when the list is empty, run the loop, and persist the new
snapshot only for a completed non-dry run. `now` models
`datetime.now().isoformat()` and `commit` models `get_git_commit`. -/
def sync_projects (md5 : String → String) (iosFiles : List (String × String))
    (state : SyncState) (tree : List (String × String))
    (files : Option (List String)) (dry_run interactive : Bool)
    (resp : Nat → String) (now : String) (commit : Option String) : RunOut :=
  let changes := filter_changes files (detect_changes md5 iosFiles state)
  if changes.isEmpty then ⟨tree, [], none⟩
  else
    match sync_loop iosFiles state.package_name dry_run interactive resp 0 changes tree []
        state.file_mapping state.checksums with
    | LoopRes.abort t ev => ⟨t, ev, none⟩
    | LoopRes.done t ev nm nc =>
      if dry_run then ⟨t, ev, none⟩
      else
        ⟨t, ev, some (SyncState.mk now commit state.ios_path state.android_path
          state.package_name nm nc)⟩

/-- `apply_change` again, with the fallibility of each I/O call made
explicit: `srcReadable` is whether `source.read_text()` (line 252)
succeeds, `tgtReadable` whether `target.read_text()` (line 283) succeeds,
and `tgtWritable` whether `target.unlink()` / `mkdir` / `target.write_text`
(lines 243, 279, 299) succeed. The Python function contains no
`try`/`except`, so a failing call raises — modeled as `Except.error`. -/
def apply_changeE (change : FileChange) (iosFiles : List (String × String))
    (srcReadable : String → Bool) (tree : List (String × String))
    (tgtReadable tgtWritable : String → Bool)
    (package_name : String) (dry_run : Bool) :
    Except String (Option String × List (String × String) × List Event) :=
  if change.change_type = "deleted" then
    match change.android_path with
    | some ap =>
      if ap = "" then Except.ok (none, tree, [])
      else if (dget tree ap).isSome then
        if dry_run then Except.ok (none, tree, [])
        else if tgtWritable ap then Except.ok (none, ddel tree ap, [Event.removed ap])
        else Except.error ("unlink: " ++ ap)
      else Except.ok (none, tree, [])
    | none => Except.ok (none, tree, [])
  else
    match dget iosFiles change.ios_path with
    | none => Except.ok (none, tree, [])
    | some swift_content =>
      if srcReadable change.ios_path then
        let file_type := classify_file change.ios_path swift_content
        if file_type = "test" then Except.ok (none, tree, [])
        else
          let target_rel := target_rel_of change file_type package_name
          let gen := generated_content change.ios_path target_rel swift_content
          if dry_run then Except.ok (some target_rel, tree, [])
          else
            if change.change_type = "modified" ∧ (dget tree target_rel).isSome then
              if tgtReadable target_rel then
                let content :=
                  match dget tree target_rel with
                  | some old_content => if old_content ≠ gen then conflictWrap old_content gen else gen
                  | none => gen
                if tgtWritable target_rel then
                  Except.ok (some target_rel, dset tree target_rel content, [Event.wrote target_rel content])
                else Except.error ("write: " ++ target_rel)
              else Except.error ("read target: " ++ target_rel)
            else
              if tgtWritable target_rel then
                Except.ok (some target_rel, dset tree target_rel gen, [Event.wrote target_rel gen])
              else Except.error ("write: " ++ target_rel)
      else Except.error ("read source: " ++ change.ios_path)

/-- The per-change loop of `sync_projects` (lines 355-376) over
`apply_changeE`: an exception raised while processing one change propagates
out of the loop (the `error` carries the events already performed, which
stay on disk). -/
def sync_loopE (iosFiles : List (String × String)) (srcReadable : String → Bool)
    (tgtReadable tgtWritable : String → Bool) (package_name : String)
    (dry_run interactive : Bool) (resp : Nat → String) :
    Nat → List FileChange → List (String × String) → List Event →
    List (String × String) → List (String × String) → Except (String × List Event) LoopRes
  | _, [], tree, events, nm, nc => Except.ok (LoopRes.done tree events nm nc)
  | i, change :: rest, tree, events, nm, nc =>
    if interactive && !dry_run then
      let response := lowerS (resp i)
      if response = "q" then Except.ok (LoopRes.abort tree events)
      else if response ≠ "y" then
        sync_loopE iosFiles srcReadable tgtReadable tgtWritable package_name dry_run interactive
          resp (i + 1) rest tree events nm nc
      else
        match apply_changeE change iosFiles srcReadable tree tgtReadable tgtWritable
            package_name dry_run with
        | Except.error e => Except.error (e, events)
        | Except.ok (result, tree', ev) =>
          let u := stepUpdates dry_run change result nm nc
          sync_loopE iosFiles srcReadable tgtReadable tgtWritable package_name dry_run interactive
            resp (i + 1) rest tree' (events ++ ev) u.1 u.2
    else
      match apply_changeE change iosFiles srcReadable tree tgtReadable tgtWritable
          package_name dry_run with
      | Except.error e => Except.error (e, events)
      | Except.ok (result, tree', ev) =>
        let u := stepUpdates dry_run change result nm nc
        sync_loopE iosFiles srcReadable tgtReadable tgtWritable package_name dry_run interactive
          resp (i + 1) rest tree' (events ++ ev) u.1 u.2

/-- `sync_projects` over the fallible loop: an uncaught exception in any
`apply_change` call terminates the whole run before `save_sync_state`. -/
def sync_projectsE (md5 : String → String) (iosFiles : List (String × String))
    (srcReadable tgtReadable tgtWritable : String → Bool)
    (state : SyncState) (tree : List (String × String))
    (files : Option (List String)) (dry_run interactive : Bool)
    (resp : Nat → String) (now : String) (commit : Option String) :
    Except (String × List Event) RunOut :=
  let changes := filter_changes files (detect_changes md5 iosFiles state)
  if changes.isEmpty then Except.ok ⟨tree, [], none⟩
  else
    match sync_loopE iosFiles srcReadable tgtReadable tgtWritable state.package_name dry_run
        interactive resp 0 changes tree [] state.file_mapping state.checksums with
    | Except.error e => Except.error e
    | Except.ok (LoopRes.abort t ev) => Except.ok ⟨t, ev, none⟩
    | Except.ok (LoopRes.done t ev nm nc) =>
      if dry_run then Except.ok ⟨t, ev, none⟩
      else
        Except.ok ⟨t, ev, some (SyncState.mk now commit state.ios_path state.android_path
          state.package_name nm nc)⟩

end sync_projects

namespace convert_project

/-- The rule table of `convert_swift_to_kotlin` in convert_project.py
lines 410-423, in source order. -/
def proj_rules : List (List PElem × List RElem) :=
  [ (wordPat "let", litRep "val"),
    (wordPat "var", litRep "var"),
    (wordPat "func", litRep "fun"),
    (wordPat "nil", litRep "null"),
    (wordPat "self", litRep "this"),
    (wordPat "struct", litRep "data class"),
    (wordPat "enum", litRep "enum class"),
    (wordPat "protocol", litRep "interface"),
    (wordPat "Bool", litRep "Boolean"),
    ([PElem.lit '[', PElem.capWord, PElem.lit ']'],
      [RElem.rc 'L', RElem.rc 'i', RElem.rc 's', RElem.rc 't', RElem.rc '<', RElem.ref, RElem.rc '>']),
    (litPat "??", litRep "?:"),
    (litPat "-> Void", litRep ": Unit"),
    (litPat "-> " ++ [PElem.capWord], [RElem.rc ':', RElem.rc ' ', RElem.ref]),
    ([PElem.lit '\\', PElem.lit '(', PElem.capNotRP, PElem.lit ')'],
      [RElem.rc '$', RElem.rc '\x7b', RElem.ref, RElem.rc '\x7d']),
    (litPat ".count" ++ [PElem.bnd], litRep ".size"),
    (litPat ".isEmpty" ++ [PElem.bnd], litRep ".isEmpty()"),
    (litPat ".append(", litRep ".add("),
    (litPat ".first" ++ [PElem.bnd], litRep ".firstOrNull()"),
    (litPat "print(", litRep "println("),
    (litPat "import Foundation", litRep "// import Foundation"),
    (litPat "import UIKit", litRep "// import UIKit"),
    (litPat "import SwiftUI", litRep "// import SwiftUI - use Compose"),
    (litPat "import Combine", litRep "// import Combine - use Flow") ]

def marker_published : String := "// TODO: VERIFY - Convert to MutableStateFlow"

def marker_state : String := "// TODO: VERIFY - Convert to remember \x7b mutableStateOf() \x7d"

def marker_observed : String := "// TODO: VERIFY - Convert to viewModel()"

def pat_published : List PElem := litPat "@Published" ++ [PElem.bnd]

def pat_state : List PElem := litPat "@State" ++ [PElem.bnd]

def pat_observed : List PElem := litPat "@ObservedObject" ++ [PElem.bnd]

/-- The `markers` table of convert_project.py lines 429-433, in order. -/
def proj_markers : List (List PElem × String) :=
  [(pat_published, marker_published), (pat_state, marker_state), (pat_observed, marker_observed)]

/-- The marker loop of convert_project.py lines 435-438: prepend the first
matching marker and stop. -/
def addMarkers : List (List PElem × String) → List Char → List Char
  | [], s => s
  | (p, m) :: rest, s => if searchP p none s then m.data ++ ('\n' :: s) else addMarkers rest s

/-- `convert_swift_to_kotlin`, convert_project.py lines 406-440: the
substitution fold followed by the advisory-marker pass (the `filename`
parameter is unused, as in the source). -/
def convert_swift_to_kotlin (swift_content : String) (filename : String) : String :=
  ⟨addMarkers proj_markers (applyRules proj_rules swift_content.data)⟩

/-- `create_sync_state`, convert_project.py lines 482-493: the initial
snapshot written by the one-shot conversion — note `checksums` is the empty
dict. -/
def create_sync_state (now : String) (ios_path android_path package_name : String)
    (file_mapping : List (String × String)) : SyncState :=
  ⟨now, none, ios_path, android_path, package_name, file_mapping, []⟩

end convert_project

/-! ## Lemmas about the dict operations -/

theorem dkeys_nil : dkeys [] = [] := rfl

theorem dkeys_cons (a b : String) (t : List (String × String)) :
    dkeys ((a, b) :: t) = a :: dkeys t := rfl

theorem dkeys_append (l₁ l₂ : List (String × String)) :
    dkeys (l₁ ++ l₂) = dkeys l₁ ++ dkeys l₂ := by
  simp [dkeys]

theorem dget_dset_self (l : List (String × String)) (k v : String) :
    dget (dset l k v) k = some v := by
  induction l with
  | nil => simp [dset, dget]
  | cons hd t ih =>
    obtain ⟨a, b⟩ := hd
    by_cases h : a = k
    · simp [dset, h, dget]
    · simp [dset, h, dget, ih]

theorem dget_dset_ne (l : List (String × String)) (k v k' : String) (h : k' ≠ k) :
    dget (dset l k v) k' = dget l k' := by
  have h' : ¬(k = k') := fun hh => h hh.symm
  induction l with
  | nil => simp [dset, dget, h']
  | cons hd t ih =>
    obtain ⟨a, b⟩ := hd
    by_cases hak : a = k
    · subst hak
      simp [dset, dget, h']
    · simp [dset, hak, dget, ih]

theorem dget_ddel_self (l : List (String × String)) (k : String) :
    dget (ddel l k) k = none := by
  induction l with
  | nil => simp [ddel, dget]
  | cons hd t ih =>
    obtain ⟨a, b⟩ := hd
    by_cases h : a = k
    · simp [ddel, h, ih]
    · simp [ddel, h, dget, ih]

theorem dget_ddel_ne (l : List (String × String)) (k k' : String) (h : k' ≠ k) :
    dget (ddel l k) k' = dget l k' := by
  induction l with
  | nil => simp [ddel]
  | cons hd t ih =>
    obtain ⟨a, b⟩ := hd
    by_cases hak : a = k
    · subst hak
      have h' : ¬(a = k') := fun hh => h (hh ▸ rfl)
      simp [ddel, dget, h', ih]
    · simp [ddel, hak, dget, ih]

theorem dget_eq_none_iff (l : List (String × String)) (k : String) :
    dget l k = none ↔ k ∉ dkeys l := by
  induction l with
  | nil => simp [dget, dkeys]
  | cons hd t ih =>
    obtain ⟨a, b⟩ := hd
    rw [dkeys_cons]
    by_cases h : a = k
    · subst h
      simp [dget]
    · have h' : ¬(k = a) := fun hh => h hh.symm
      simp [dget, h, h', ih]

theorem dget_isSome_iff (l : List (String × String)) (k : String) :
    (dget l k).isSome ↔ k ∈ dkeys l := by
  constructor
  · intro hs
    by_contra hm
    rw [(dget_eq_none_iff l k).mpr hm] at hs
    simp at hs
  · intro hm
    cases o : dget l k with
    | some v => simp
    | none => exact absurd hm ((dget_eq_none_iff l k).mp o)

theorem dget_isSome_of_mem (l : List (String × String)) (k v : String)
    (h : (k, v) ∈ l) : (dget l k).isSome := by
  rw [dget_isSome_iff]
  exact List.mem_map.mpr ⟨(k, v), h, rfl⟩

theorem mem_of_dget (l : List (String × String)) (k v : String)
    (h : dget l k = some v) : (k, v) ∈ l := by
  induction l with
  | nil => simp [dget] at h
  | cons hd t ih =>
    obtain ⟨a, b⟩ := hd
    by_cases hak : a = k
    · subst hak
      simp only [dget, if_pos rfl] at h
      have hb : b = v := Option.some.inj h
      exact List.mem_cons.mpr (Or.inl (by rw [hb]))
    · simp only [dget, if_neg hak] at h
      exact List.mem_cons_of_mem _ (ih h)

theorem dget_of_mem_nodup (l : List (String × String)) (k v : String)
    (hn : (dkeys l).Nodup) (h : (k, v) ∈ l) : dget l k = some v := by
  induction l with
  | nil => simp at h
  | cons hd t ih =>
    obtain ⟨a, b⟩ := hd
    rw [dkeys_cons] at hn
    have hn' := List.nodup_cons.mp hn
    rcases List.mem_cons.mp h with h1 | h1
    · rw [Prod.mk.injEq] at h1
      obtain ⟨hk, hv⟩ := h1
      subst hk
      subst hv
      simp [dget]
    · have hak : ¬(a = k) := by
        intro hh
        subst hh
        exact hn'.1 (List.mem_map.mpr ⟨(a, v), h1, rfl⟩)
      simp only [dget, if_neg hak]
      exact ih hn'.2 h1

theorem dkeys_dset_of_mem (l : List (String × String)) (k v : String)
    (h : k ∈ dkeys l) : dkeys (dset l k v) = dkeys l := by
  induction l with
  | nil => simp [dkeys] at h
  | cons hd t ih =>
    obtain ⟨a, b⟩ := hd
    rw [dkeys_cons] at h
    by_cases hak : a = k
    · simp only [dset, if_pos hak, dkeys_cons]
      rw [hak]
    · have h' : k ∈ dkeys t := by
        rcases List.mem_cons.mp h with h1 | h1
        · exact absurd h1.symm hak
        · exact h1
      simp only [dset, if_neg hak, dkeys_cons]
      rw [ih h']

theorem dkeys_dset_of_not_mem (l : List (String × String)) (k v : String)
    (h : k ∉ dkeys l) : dkeys (dset l k v) = dkeys l ++ [k] := by
  induction l with
  | nil => simp [dset, dkeys]
  | cons hd t ih =>
    obtain ⟨a, b⟩ := hd
    rw [dkeys_cons] at h
    have hak : ¬(a = k) := fun hh => h (hh ▸ List.mem_cons_self a (dkeys t))
    have h' : k ∉ dkeys t := fun hm => h (List.mem_cons_of_mem _ hm)
    simp only [dset, if_neg hak, dkeys_cons, ih h', List.cons_append]

theorem nodup_dkeys_dset (l : List (String × String)) (k v : String)
    (hn : (dkeys l).Nodup) : (dkeys (dset l k v)).Nodup := by
  by_cases h : k ∈ dkeys l
  · rw [dkeys_dset_of_mem l k v h]
    exact hn
  · rw [dkeys_dset_of_not_mem l k v h]
    rw [List.nodup_append_comm, List.singleton_append]
    exact List.nodup_cons.mpr ⟨h, hn⟩

theorem ddel_sublist (l : List (String × String)) (k : String) :
    (ddel l k).Sublist l := by
  induction l with
  | nil => simp [ddel]
  | cons hd t ih =>
    obtain ⟨a, b⟩ := hd
    by_cases h : a = k
    · simp only [ddel, if_pos h]
      exact ih.cons _
    · simp only [ddel, if_neg h]
      exact ih.cons₂ _

theorem nodup_dkeys_ddel (l : List (String × String)) (k : String)
    (hn : (dkeys l).Nodup) : (dkeys (ddel l k)).Nodup :=
  (((ddel_sublist l k).map _).nodup hn :)

theorem dset_eq_append_of_not_mem (l : List (String × String)) (k v : String)
    (h : k ∉ dkeys l) : dset l k v = l ++ [(k, v)] := by
  induction l with
  | nil => simp [dset]
  | cons hd t ih =>
    obtain ⟨a, b⟩ := hd
    rw [dkeys_cons] at h
    have hak : ¬(a = k) := fun hh => h (hh ▸ List.mem_cons_self a (dkeys t))
    have h' : k ∉ dkeys t := fun hm => h (List.mem_cons_of_mem _ hm)
    simp only [dset, if_neg hak, ih h', List.cons_append]

theorem foldl_dset_fresh (items : List (String × String)) :
    ∀ acc : List (String × String), (dkeys (acc ++ items)).Nodup →
      items.foldl (fun d kv => dset d kv.1 kv.2) acc = acc ++ items := by
  induction items with
  | nil => simp
  | cons kv t ih =>
    intro acc hn
    obtain ⟨k0, v0⟩ := kv
    have hfresh : k0 ∉ dkeys acc := by
      intro hmem
      have hn' := hn
      rw [dkeys_append, dkeys_cons] at hn'
      exact (List.disjoint_of_nodup_append hn') hmem (List.mem_cons_self _ _)
    have hstep : dset acc k0 v0 = acc ++ [(k0, v0)] :=
      dset_eq_append_of_not_mem acc k0 v0 hfresh
    have hn2 : (dkeys ((acc ++ [(k0, v0)]) ++ t)).Nodup := by
      rw [List.append_assoc, List.singleton_append]
      exact hn
    have := ih (acc ++ [(k0, v0)]) hn2
    rw [List.foldl_cons, hstep, this, List.append_assoc, List.singleton_append]

theorem dictOfList_eq_self (items : List (String × String))
    (h : (dkeys items).Nodup) : dictOfList items = items := by
  have := foldl_dset_fresh items [] (by simpa using h)
  simpa [dictOfList] using this

theorem dkeys_map_fst (items : List (String × String)) (f : String × String → String) :
    dkeys (items.map (fun pc => (pc.1, f pc))) = dkeys items := by
  simp [dkeys, List.map_map]

/-! ## Characterization of `detect_changes` -/

section DetectLemmas

open sync_projects

theorem detect_entry_some (state : SyncState) (rc : String × String) (c : FileChange) :
    detect_entry state rc = some c ↔
      (dget state.checksums rc.1 = none ∧
        c = FileChange.mk rc.1 none "added" none (some rc.2)) ∨
      (∃ old, dget state.checksums rc.1 = some old ∧ old ≠ rc.2 ∧
        c = FileChange.mk rc.1 (dget state.file_mapping rc.1) "modified" (some old) (some rc.2)) := by
  unfold detect_entry
  cases o : dget state.checksums rc.1 with
  | none => simp [o, eq_comm]
  | some old =>
    by_cases hne : old = rc.2
    · simp [o, hne]
    · simp [o, hne, eq_comm]

theorem detect_entry_key (state : SyncState) (rc : String × String) (c : FileChange)
    (h : detect_entry state rc = some c) : c.ios_path = rc.1 := by
  rcases (detect_entry_some state rc c).mp h with ⟨_, hc⟩ | ⟨old, _, _, hc⟩ <;> rw [hc]

/-- Keys produced by a key-preserving `filterMap` stay pairwise distinct. -/
theorem nodup_paths_filterMap (f : String × String → Option FileChange)
    (hf : ∀ rc c, f rc = some c → c.ios_path = rc.1) :
    ∀ l : List (String × String), (dkeys l).Nodup →
      ((l.filterMap f).map (fun c => c.ios_path)).Nodup := by
  intro l
  induction l with
  | nil => simp
  | cons hd t ih =>
    intro hn
    obtain ⟨k, v⟩ := hd
    rw [dkeys_cons] at hn
    have hn' := List.nodup_cons.mp hn
    cases o : f (k, v) with
    | none => simpa [List.filterMap_cons, o] using ih hn'.2
    | some c =>
      rw [List.filterMap_cons, o, List.map_cons]
      refine List.nodup_cons.mpr ⟨?_, ih hn'.2⟩
      intro hmem
      rcases List.mem_map.mp hmem with ⟨c', hc', hpath⟩
      rcases List.mem_filterMap.mp hc' with ⟨rc', hrc', ho'⟩
      apply hn'.1
      have hkey : rc'.1 = k := by
        rw [← hf rc' c' ho', hpath, hf (k, v) c o]
      rw [← hkey]
      exact List.mem_map.mpr ⟨rc', hrc', rfl⟩

/-- Every change detected by `detect_changes` is exactly one of the three
cases of the detection algorithm (under the invariant that the enumerated
source paths are distinct, as `rglob` guarantees). -/
theorem detect_changes_mem (md5 : String → String) (iosFiles : List (String × String))
    (state : SyncState) (hnI : (dkeys iosFiles).Nodup) (c : FileChange) :
    c ∈ detect_changes md5 iosFiles state ↔
      (∃ p cc, (p, cc) ∈ iosFiles ∧ dget state.checksums p = none ∧
        c = FileChange.mk p none "added" none (some (md5 cc))) ∨
      (∃ p cc old, (p, cc) ∈ iosFiles ∧ dget state.checksums p = some old ∧ old ≠ md5 cc ∧
        c = FileChange.mk p (dget state.file_mapping p) "modified" (some old) (some (md5 cc))) ∨
      (∃ p old, (p, old) ∈ state.checksums ∧ p ∉ dkeys iosFiles ∧
        c = FileChange.mk p (dget state.file_mapping p) "deleted" (some old) none) := by
  have hkeys : dkeys (iosFiles.map (fun pc => (pc.1, md5 pc.2))) = dkeys iosFiles :=
    dkeys_map_fst _ _
  have hcur : dictOfList (iosFiles.map (fun pc => (pc.1, md5 pc.2))) =
      iosFiles.map (fun pc => (pc.1, md5 pc.2)) :=
    dictOfList_eq_self _ (by rw [hkeys]; exact hnI)
  constructor
  · intro h
    simp only [detect_changes, hcur] at h
    rcases List.mem_append.mp h with h1 | h2
    · rcases List.mem_filterMap.mp h1 with ⟨rc, hrc, hfc⟩
      rcases List.mem_map.mp hrc with ⟨⟨p, cc⟩, hmem, hpc⟩
      subst hpc
      rcases (detect_entry_some state _ c).mp hfc with ⟨ho, hc⟩ | ⟨old, ho, hne, hc⟩
      · exact Or.inl ⟨p, cc, hmem, ho, hc⟩
      · exact Or.inr (Or.inl ⟨p, cc, old, hmem, ho, hne, hc⟩)
    · rcases List.mem_map.mp h2 with ⟨⟨p, old⟩, hmem, hc⟩
      have hm := List.mem_filter.mp hmem
      have hnot : p ∉ dkeys iosFiles := by
        intro hmemk
        have hsome : (dget (iosFiles.map (fun pc => (pc.1, md5 pc.2))) p).isSome := by
          rw [dget_isSome_iff, hkeys]
          exact hmemk
        have := hm.2
        rw [hsome] at this
        exact absurd this (by simp)
      exact Or.inr (Or.inr ⟨p, old, hm.1, hnot, hc.symm⟩)
  · intro h
    simp only [detect_changes, hcur]
    rcases h with ⟨p, cc, hmem, ho, hc⟩ | ⟨p, cc, old, hmem, ho, hne, hc⟩ | ⟨p, old, hmem, hnot, hc⟩
    · refine List.mem_append.mpr (Or.inl (List.mem_filterMap.mpr
        ⟨(p, md5 cc), List.mem_map.mpr ⟨(p, cc), hmem, rfl⟩, ?_⟩))
      exact (detect_entry_some state _ c).mpr (Or.inl ⟨ho, hc⟩)
    · refine List.mem_append.mpr (Or.inl (List.mem_filterMap.mpr
        ⟨(p, md5 cc), List.mem_map.mpr ⟨(p, cc), hmem, rfl⟩, ?_⟩))
      exact (detect_entry_some state _ c).mpr (Or.inr ⟨old, ho, hne, hc⟩)
    · refine List.mem_append.mpr (Or.inr (List.mem_map.mpr
        ⟨(p, old), List.mem_filter.mpr ⟨hmem, ?_⟩, hc.symm⟩))
      have hno : dget (iosFiles.map (fun pc => (pc.1, md5 pc.2))) p = none := by
        rw [dget_eq_none_iff, hkeys]
        exact hnot
      simp [hno]

/-- The source paths of the detected changes are pairwise distinct. -/
theorem detect_changes_paths_nodup (md5 : String → String) (iosFiles : List (String × String))
    (state : SyncState) (hnI : (dkeys iosFiles).Nodup)
    (hnC : (dkeys state.checksums).Nodup) :
    ((detect_changes md5 iosFiles state).map (fun c => c.ios_path)).Nodup := by
  have hkeys : dkeys (iosFiles.map (fun pc => (pc.1, md5 pc.2))) = dkeys iosFiles :=
    dkeys_map_fst _ _
  have hcur : dictOfList (iosFiles.map (fun pc => (pc.1, md5 pc.2))) =
      iosFiles.map (fun pc => (pc.1, md5 pc.2)) :=
    dictOfList_eq_self _ (by rw [hkeys]; exact hnI)
  simp only [detect_changes, hcur, List.map_append]
  rw [List.nodup_append]
  refine ⟨?_, ?_, ?_⟩
  · exact nodup_paths_filterMap _ (detect_entry_key state) _ (by rw [hkeys]; exact hnI)
  · rw [List.map_map]
    exact ((List.filter_sublist state.checksums).map _).nodup hnC
  · intro a ha hb
    rcases List.mem_map.mp ha with ⟨c, hc, hpath⟩
    rcases List.mem_filterMap.mp hc with ⟨rc, hrc, ho⟩
    rcases List.mem_map.mp hb with ⟨c2, hc2, hpath2⟩
    rcases List.mem_map.mp hc2 with ⟨rc2, hrc2, ho2⟩
    have hm2 := List.mem_filter.mp hrc2
    have hnot2 : rc2.1 ∉ dkeys iosFiles := by
      intro hmemk
      have hsome : (dget (iosFiles.map (fun pc => (pc.1, md5 pc.2))) rc2.1).isSome := by
        rw [dget_isSome_iff, hkeys]
        exact hmemk
      have := hm2.2
      rw [hsome] at this
      exact absurd this (by simp)
    apply hnot2
    have hkey2 : c2.ios_path = rc2.1 := by rw [← ho2]
    have hkey : c.ios_path = rc.1 := detect_entry_key state rc c ho
    have : rc2.1 = rc.1 := by rw [← hkey2, hpath2, ← hpath, hkey]
    rw [this, ← hkeys]
    exact List.mem_map.mpr ⟨rc, hrc, rfl⟩

/-- Distinct changes in one detection never share a source path. -/
theorem detect_changes_unique (md5 : String → String) (iosFiles : List (String × String))
    (state : SyncState) (hnI : (dkeys iosFiles).Nodup)
    (hnC : (dkeys state.checksums).Nodup) :
    ∀ c₁, c₁ ∈ detect_changes md5 iosFiles state →
    ∀ c₂, c₂ ∈ detect_changes md5 iosFiles state →
      c₁.ios_path = c₂.ios_path → c₁ = c₂ := by
  have h := detect_changes_paths_nodup md5 iosFiles state hnI hnC
  intro c₁ h₁ c₂ h₂ hp
  exact List.inj_on_of_nodup_map h h₁ h₂ hp

end DetectLemmas

/-! ## Lemmas about the per-change loop of `sync_projects` -/

section LoopLemmas

open sync_projects

theorem stepUpdates_preserve (dry_run : Bool) (change : FileChange) (result : Option String)
    (nm nc : List (String × String)) (p : String) (h : change.ios_path ≠ p) :
    dget (stepUpdates dry_run change result nm nc).1 p = dget nm p ∧
    dget (stepUpdates dry_run change result nm nc).2 p = dget nc p := by
  cases dry_run with
  | true => simp [stepUpdates]
  | false =>
    by_cases hd : change.change_type = "deleted"
    · simp [stepUpdates, hd, dget_ddel_ne _ _ _ (Ne.symm h)]
    · constructor
      · cases hr : result with
        | none => simp [stepUpdates, hd, hr]
        | some res =>
          by_cases hres : res = ""
          · simp [stepUpdates, hd, hr, hres]
          · simp [stepUpdates, hd, hr, hres, dget_dset_ne _ _ _ _ (Ne.symm h)]
      · cases hck : change.new_checksum with
        | none => simp [stepUpdates, hd, hck]
        | some ck =>
          by_cases hcke : ck = ""
          · simp [stepUpdates, hd, hck, hcke]
          · simp [stepUpdates, hd, hck, hcke, dget_dset_ne _ _ _ _ (Ne.symm h)]

theorem stepUpdates_deleted (change : FileChange) (result : Option String)
    (nm nc : List (String × String)) (hd : change.change_type = "deleted") :
    stepUpdates false change result nm nc =
      (ddel nm change.ios_path, ddel nc change.ios_path) := by
  simp [stepUpdates, hd]

theorem stepUpdates_nc_set (change : FileChange) (result : Option String)
    (nm nc : List (String × String)) (ck : String)
    (hd : change.change_type ≠ "deleted") (hck : change.new_checksum = some ck)
    (hne : ck ≠ "") :
    (stepUpdates false change result nm nc).2 = dset nc change.ios_path ck := by
  cases hr : result with
  | none => simp [stepUpdates, hd, hck, hne]
  | some res =>
    by_cases hres : res = "" <;> simp [stepUpdates, hd, hck, hne, hres]

theorem sync_loop_nil (iosFiles : List (String × String)) (pkg : String)
    (dry interactive : Bool) (resp : Nat → String) (i : Nat)
    (tree : List (String × String)) (events : List Event)
    (nm nc : List (String × String)) :
    sync_loop iosFiles pkg dry interactive resp i [] tree events nm nc =
      LoopRes.done tree events nm nc := rfl

theorem sync_loop_cons_noprompt (iosFiles : List (String × String)) (pkg : String)
    (dry interactive : Bool) (resp : Nat → String) (i : Nat) (change : FileChange)
    (rest : List FileChange) (tree : List (String × String)) (events : List Event)
    (nm nc : List (String × String)) (h : (interactive && !dry) = false) :
    sync_loop iosFiles pkg dry interactive resp i (change :: rest) tree events nm nc =
      sync_loop iosFiles pkg dry interactive resp (i + 1) rest
        (sync_step iosFiles pkg dry change tree events nm nc).1
        (sync_step iosFiles pkg dry change tree events nm nc).2.1
        (sync_step iosFiles pkg dry change tree events nm nc).2.2.1
        (sync_step iosFiles pkg dry change tree events nm nc).2.2.2 := by
  simp [sync_loop, h]

theorem sync_loop_cons_q (iosFiles : List (String × String)) (pkg : String)
    (dry interactive : Bool) (resp : Nat → String) (i : Nat) (change : FileChange)
    (rest : List FileChange) (tree : List (String × String)) (events : List Event)
    (nm nc : List (String × String)) (h : (interactive && !dry) = true)
    (hq : lowerS (resp i) = "q") :
    sync_loop iosFiles pkg dry interactive resp i (change :: rest) tree events nm nc =
      LoopRes.abort tree events := by
  simp [sync_loop, h, hq]

theorem sync_loop_cons_skip (iosFiles : List (String × String)) (pkg : String)
    (dry interactive : Bool) (resp : Nat → String) (i : Nat) (change : FileChange)
    (rest : List FileChange) (tree : List (String × String)) (events : List Event)
    (nm nc : List (String × String)) (h : (interactive && !dry) = true)
    (hq : lowerS (resp i) ≠ "q") (hy : lowerS (resp i) ≠ "y") :
    sync_loop iosFiles pkg dry interactive resp i (change :: rest) tree events nm nc =
      sync_loop iosFiles pkg dry interactive resp (i + 1) rest tree events nm nc := by
  simp [sync_loop, h, hq, hy]

theorem sync_loop_cons_apply (iosFiles : List (String × String)) (pkg : String)
    (dry interactive : Bool) (resp : Nat → String) (i : Nat) (change : FileChange)
    (rest : List FileChange) (tree : List (String × String)) (events : List Event)
    (nm nc : List (String × String)) (h : (interactive && !dry) = true)
    (hy : lowerS (resp i) = "y") :
    sync_loop iosFiles pkg dry interactive resp i (change :: rest) tree events nm nc =
      sync_loop iosFiles pkg dry interactive resp (i + 1) rest
        (sync_step iosFiles pkg dry change tree events nm nc).1
        (sync_step iosFiles pkg dry change tree events nm nc).2.1
        (sync_step iosFiles pkg dry change tree events nm nc).2.2.1
        (sync_step iosFiles pkg dry change tree events nm nc).2.2.2 := by
  simp [sync_loop, h, hy]

theorem sync_loop_noninteractive_done (iosFiles : List (String × String)) (pkg : String)
    (dry : Bool) (resp : Nat → String) :
    ∀ (cs : List FileChange) (i : Nat) (tree : List (String × String)) (events : List Event)
      (nm nc : List (String × String)), ∃ t ev nm' nc',
      sync_loop iosFiles pkg dry false resp i cs tree events nm nc =
        LoopRes.done t ev nm' nc' := by
  intro cs
  induction cs with
  | nil => intro i tree events nm nc; exact ⟨tree, events, nm, nc, rfl⟩
  | cons change rest ih =>
    intro i tree events nm nc
    rw [sync_loop_cons_noprompt _ _ _ _ _ _ _ _ _ _ _ _ (by simp)]
    exact ih _ _ _ _ _

theorem sync_loop_preserve (iosFiles : List (String × String)) (pkg : String)
    (dry interactive : Bool) (resp : Nat → String) (p : String) :
    ∀ (cs : List FileChange) (i : Nat) (tree : List (String × String)) (events : List Event)
      (nm nc : List (String × String)) t ev nm' nc',
      (∀ c ∈ cs, c.ios_path ≠ p) →
      sync_loop iosFiles pkg dry interactive resp i cs tree events nm nc =
        LoopRes.done t ev nm' nc' →
      dget nm' p = dget nm p ∧ dget nc' p = dget nc p := by
  intro cs
  induction cs with
  | nil =>
    intro i tree events nm nc t ev nm' nc' _ hloop
    rw [sync_loop_nil] at hloop
    cases hloop
    exact ⟨rfl, rfl⟩
  | cons change rest ih =>
    intro i tree events nm nc t ev nm' nc' hpath hloop
    have hhd : change.ios_path ≠ p := hpath change (List.mem_cons_self _ _)
    have htl : ∀ c ∈ rest, c.ios_path ≠ p := fun c hc => hpath c (List.mem_cons_of_mem _ hc)
    have hstep := stepUpdates_preserve dry change
      (apply_change change iosFiles tree pkg dry).1 nm nc p hhd
    by_cases hI : (interactive && !dry) = true
    · by_cases hq : lowerS (resp i) = "q"
      · rw [sync_loop_cons_q _ _ _ _ _ _ _ _ _ _ _ _ hI hq] at hloop
        simp at hloop
      · by_cases hy : lowerS (resp i) = "y"
        · rw [sync_loop_cons_apply _ _ _ _ _ _ _ _ _ _ _ _ hI hy] at hloop
          have hrec := ih (i + 1) _ _ _ _ t ev nm' nc' htl hloop
          exact ⟨hrec.1.trans hstep.1, hrec.2.trans hstep.2⟩
        · rw [sync_loop_cons_skip _ _ _ _ _ _ _ _ _ _ _ _ hI hq hy] at hloop
          exact ih (i + 1) _ _ _ _ t ev nm' nc' htl hloop
    · rw [sync_loop_cons_noprompt _ _ _ _ _ _ _ _ _ _ _ _ (by simpa using hI)] at hloop
      have hrec := ih (i + 1) _ _ _ _ t ev nm' nc' htl hloop
      exact ⟨hrec.1.trans hstep.1, hrec.2.trans hstep.2⟩

theorem sync_loop_set (iosFiles : List (String × String)) (pkg : String)
    (resp : Nat → String) (p : String) :
    ∀ (cs : List FileChange) (i : Nat) (tree : List (String × String)) (events : List Event)
      (nm nc : List (String × String)) t ev nm' nc' (c : FileChange),
      ((cs.map fun c => c.ios_path).Nodup) → c ∈ cs → c.ios_path = p →
      sync_loop iosFiles pkg false false resp i cs tree events nm nc =
        LoopRes.done t ev nm' nc' →
      (c.change_type = "deleted" → dget nm' p = none ∧ dget nc' p = none) ∧
      (∀ ck, c.change_type ≠ "deleted" → c.new_checksum = some ck → ck ≠ "" →
        dget nc' p = some ck) := by
  intro cs
  induction cs with
  | nil =>
    intro i tree events nm nc t ev nm' nc' c _ hc
    exact absurd hc (List.not_mem_nil c)
  | cons d rest ih =>
    intro i tree events nm nc t ev nm' nc' c hnd hc hp hloop
    rw [List.map_cons] at hnd
    have hnd' := List.nodup_cons.mp hnd
    rw [sync_loop_cons_noprompt _ _ _ _ _ _ _ _ _ _ _ _ (by simp)] at hloop
    rcases List.mem_cons.mp hc with rfl | hmem
    · subst hp
      have hrestne : ∀ c' ∈ rest, c'.ios_path ≠ c.ios_path := by
        intro c' hc' heq
        exact hnd'.1 (List.mem_map.mpr ⟨c', hc', heq⟩)
      have hpres := sync_loop_preserve iosFiles pkg false false resp c.ios_path rest (i + 1)
        _ _ _ _ t ev nm' nc' hrestne hloop
      constructor
      · intro hdel
        have hstep := stepUpdates_deleted c
          (apply_change c iosFiles tree pkg false).1 nm nc hdel
        constructor
        · rw [hpres.1]
          show dget (stepUpdates false c (apply_change c iosFiles tree pkg false).1 nm nc).1
            c.ios_path = none
          rw [hstep]
          exact dget_ddel_self nm c.ios_path
        · rw [hpres.2]
          show dget (stepUpdates false c (apply_change c iosFiles tree pkg false).1 nm nc).2
            c.ios_path = none
          rw [hstep]
          exact dget_ddel_self nc c.ios_path
      · intro ck hndel hck hcke
        have hstep := stepUpdates_nc_set c
          (apply_change c iosFiles tree pkg false).1 nm nc ck hndel hck hcke
        rw [hpres.2]
        show dget (stepUpdates false c (apply_change c iosFiles tree pkg false).1 nm nc).2
          c.ios_path = some ck
        rw [hstep]
        exact dget_dset_self nc c.ios_path ck
    · exact ih (i + 1) _ _ _ _ t ev nm' nc' c hnd'.2 hmem hp hloop

/-- After a completed non-interactive, non-dry run over the detected
changes, the final `new_checksums` table maps every currently-present source
path to the hash of its current content and contains nothing else. -/
theorem sync_loop_final_nc (md5 : String → String) (iosFiles : List (String × String))
    (state : SyncState) (pkg : String) (resp : Nat → String)
    (tree : List (String × String))
    (hnI : (dkeys iosFiles).Nodup) (hnC : (dkeys state.checksums).Nodup)
    (hmd5 : ∀ p cc, (p, cc) ∈ iosFiles → md5 cc ≠ "")
    (t : List (String × String)) (ev : List Event) (nm' nc' : List (String × String))
    (hloop : sync_loop iosFiles pkg false false resp 0 (detect_changes md5 iosFiles state)
      tree [] state.file_mapping state.checksums = LoopRes.done t ev nm' nc') :
    ∀ p, dget nc' p = (dget iosFiles p).map md5 := by
  intro p
  have hnodup := detect_changes_paths_nodup md5 iosFiles state hnI hnC
  cases o : dget iosFiles p with
  | some cc =>
    have hmem : (p, cc) ∈ iosFiles := mem_of_dget iosFiles p cc o
    cases o2 : dget state.checksums p with
    | none =>
      have hcmem : FileChange.mk p none "added" none (some (md5 cc)) ∈
          detect_changes md5 iosFiles state :=
        (detect_changes_mem md5 iosFiles state hnI _).mpr (Or.inl ⟨p, cc, hmem, o2, rfl⟩)
      have hset := (sync_loop_set iosFiles pkg resp p _ 0 _ _ _ _ t ev nm' nc' _
        hnodup hcmem rfl hloop).2 (md5 cc) (by simp) rfl (hmd5 p cc hmem)
      simp [hset]
    | some old =>
      by_cases hold : old = md5 cc
      · have hno : ∀ c ∈ detect_changes md5 iosFiles state, c.ios_path ≠ p := by
          intro c hcm heq
          rcases (detect_changes_mem md5 iosFiles state hnI c).mp hcm with
            ⟨p', cc', hm', ho', hc⟩ | ⟨p', cc', old', hm', ho', hne', hc⟩ |
            ⟨p', old', hm', hnot', hc⟩
          · rw [hc] at heq
            simp only at heq
            rw [heq] at ho'
            rw [o2] at ho'
            exact absurd ho' (by simp)
          · rw [hc] at heq
            simp only at heq
            rw [heq] at hm' ho'
            have h2 := dget_of_mem_nodup iosFiles p cc' hnI hm'
            rw [o] at h2
            have hcc : cc' = cc := (Option.some.inj h2).symm
            rw [o2] at ho'
            have holdeq : old' = old := (Option.some.inj ho').symm
            exact hne' (by rw [holdeq, hcc]; exact hold)
          · rw [hc] at heq
            simp only at heq
            rw [heq] at hnot'
            exact hnot' ((dget_isSome_iff iosFiles p).mp (by simp [o]))
        have hpres := sync_loop_preserve iosFiles pkg false false resp p _ 0 _ _ _ _
          t ev nm' nc' hno hloop
        rw [hpres.2, o2, hold]
        simp
      · have hcmem : FileChange.mk p (dget state.file_mapping p) "modified" (some old)
            (some (md5 cc)) ∈ detect_changes md5 iosFiles state :=
          (detect_changes_mem md5 iosFiles state hnI _).mpr
            (Or.inr (Or.inl ⟨p, cc, old, hmem, o2, hold, rfl⟩))
        have hset := (sync_loop_set iosFiles pkg resp p _ 0 _ _ _ _ t ev nm' nc' _
          hnodup hcmem rfl hloop).2 (md5 cc) (by simp) rfl (hmd5 p cc hmem)
        simp [hset]
  | none =>
    have hnotk : p ∉ dkeys iosFiles := (dget_eq_none_iff iosFiles p).mp o
    cases o2 : dget state.checksums p with
    | some old =>
      have hmem2 : (p, old) ∈ state.checksums := mem_of_dget state.checksums p old o2
      have hcmem : FileChange.mk p (dget state.file_mapping p) "deleted" (some old) none ∈
          detect_changes md5 iosFiles state :=
        (detect_changes_mem md5 iosFiles state hnI _).mpr
          (Or.inr (Or.inr ⟨p, old, hmem2, hnotk, rfl⟩))
      have hset := ((sync_loop_set iosFiles pkg resp p _ 0 _ _ _ _ t ev nm' nc' _
        hnodup hcmem rfl hloop).1 rfl).2
      simp [hset]
    | none =>
      have hno : ∀ c ∈ detect_changes md5 iosFiles state, c.ios_path ≠ p := by
        intro c hcm heq
        rcases (detect_changes_mem md5 iosFiles state hnI c).mp hcm with
          ⟨p', cc', hm', ho', hc⟩ | ⟨p', cc', old', hm', ho', hne', hc⟩ |
          ⟨p', old', hm', hnot', hc⟩
        · rw [hc] at heq
          simp only at heq
          rw [heq] at hm'
          exact hnotk (List.mem_map.mpr ⟨(p, cc'), hm', rfl⟩)
        · rw [hc] at heq
          simp only at heq
          rw [heq] at hm'
          exact hnotk (List.mem_map.mpr ⟨(p, cc'), hm', rfl⟩)
        · rw [hc] at heq
          simp only at heq
          rw [heq] at hm'
          have hs := dget_isSome_of_mem state.checksums p old' hm'
          rw [o2] at hs
          exact absurd hs (by simp)
      have hpres := sync_loop_preserve iosFiles pkg false false resp p _ 0 _ _ _ _
        t ev nm' nc' hno hloop
      rw [hpres.2, o2]
      simp

/-- A completed non-dry loop preserves "every mapping key has a checksum
key", provided every non-deleted change carries a truthy new checksum. -/
theorem sync_loop_mapInv (iosFiles : List (String × String)) (pkg : String)
    (interactive : Bool) (resp : Nat → String) :
    ∀ (cs : List FileChange) (i : Nat) (tree : List (String × String)) (events : List Event)
      (nm nc : List (String × String)) t ev nm' nc',
      (∀ c ∈ cs, c.change_type = "deleted" ∨ ∃ ck, c.new_checksum = some ck ∧ ck ≠ "") →
      (∀ k, (dget nm k).isSome → (dget nc k).isSome) →
      sync_loop iosFiles pkg false interactive resp i cs tree events nm nc =
        LoopRes.done t ev nm' nc' →
      (∀ k, (dget nm' k).isSome → (dget nc' k).isSome) := by
  intro cs
  induction cs with
  | nil =>
    intro i tree events nm nc t ev nm' nc' _ hinv hloop
    rw [sync_loop_nil] at hloop
    cases hloop
    exact hinv
  | cons change rest ih =>
    intro i tree events nm nc t ev nm' nc' hck hinv hloop
    have hckh := hck change (List.mem_cons_self _ _)
    have hckt : ∀ c ∈ rest, c.change_type = "deleted" ∨
        ∃ ck, c.new_checksum = some ck ∧ ck ≠ "" :=
      fun c hc => hck c (List.mem_cons_of_mem _ hc)
    have hstepinv : ∀ k,
        (dget (stepUpdates false change (apply_change change iosFiles tree pkg false).1
          nm nc).1 k).isSome →
        (dget (stepUpdates false change (apply_change change iosFiles tree pkg false).1
          nm nc).2 k).isSome := by
      intro k
      by_cases hdel : change.change_type = "deleted"
      · have h1 : (stepUpdates false change (apply_change change iosFiles tree pkg false).1
            nm nc).1 = ddel nm change.ios_path := by
          rw [stepUpdates_deleted _ _ _ _ hdel]
        have h2 : (stepUpdates false change (apply_change change iosFiles tree pkg false).1
            nm nc).2 = ddel nc change.ios_path := by
          rw [stepUpdates_deleted _ _ _ _ hdel]
        rw [h1, h2]
        by_cases hkp : change.ios_path = k
        · subst hkp
          intro hs
          rw [dget_ddel_self] at hs
          exact absurd hs (by simp)
        · rw [dget_ddel_ne _ _ _ (fun hh => hkp hh.symm),
            dget_ddel_ne _ _ _ (fun hh => hkp hh.symm)]
          exact hinv k
      · rcases hckh with hdel2 | ⟨ck, hcks, hckne⟩
        · exact absurd hdel2 hdel
        · have h2 : (stepUpdates false change (apply_change change iosFiles tree pkg false).1
              nm nc).2 = dset nc change.ios_path ck :=
            stepUpdates_nc_set change _ nm nc ck hdel hcks hckne
          rw [h2]
          by_cases hkp : change.ios_path = k
          · subst hkp
            intro _
            rw [dget_dset_self]
            simp
          · rw [dget_dset_ne _ _ _ _ (fun hh => hkp hh.symm)]
            have h1 := (stepUpdates_preserve false change
              (apply_change change iosFiles tree pkg false).1 nm nc k hkp).1
            rw [h1]
            exact hinv k
    by_cases hI : (interactive && !false) = true
    · by_cases hq : lowerS (resp i) = "q"
      · rw [sync_loop_cons_q _ _ _ _ _ _ _ _ _ _ _ _ hI hq] at hloop
        simp at hloop
      · by_cases hy : lowerS (resp i) = "y"
        · rw [sync_loop_cons_apply _ _ _ _ _ _ _ _ _ _ _ _ hI hy] at hloop
          exact ih (i + 1) _ _ _ _ t ev nm' nc' hckt hstepinv hloop
        · rw [sync_loop_cons_skip _ _ _ _ _ _ _ _ _ _ _ _ hI hq hy] at hloop
          exact ih (i + 1) _ _ _ _ t ev nm' nc' hckt hinv hloop
    · rw [sync_loop_cons_noprompt _ _ _ _ _ _ _ _ _ _ _ _ (by simpa using hI)] at hloop
      exact ih (i + 1) _ _ _ _ t ev nm' nc' hckt hstepinv hloop

/-- In an interactive non-dry run in which no response is `q` and every
prompt for a change of source path `p` is answered with something other than
`y`, the final tables keep their original entries at `p`. -/
theorem sync_loop_rejected_preserve (iosFiles : List (String × String)) (pkg : String)
    (resp : Nat → String) (p : String) (hq : ∀ j, lowerS (resp j) ≠ "q") :
    ∀ (cs : List FileChange) (i : Nat) (tree : List (String × String)) (events : List Event)
      (nm nc : List (String × String)) t ev nm' nc',
      (∀ j (hj : j < cs.length), (cs.get ⟨j, hj⟩).ios_path = p → lowerS (resp (i + j)) ≠ "y") →
      sync_loop iosFiles pkg false true resp i cs tree events nm nc =
        LoopRes.done t ev nm' nc' →
      dget nm' p = dget nm p ∧ dget nc' p = dget nc p := by
  intro cs
  induction cs with
  | nil =>
    intro i tree events nm nc t ev nm' nc' _ hloop
    rw [sync_loop_nil] at hloop
    cases hloop
    exact ⟨rfl, rfl⟩
  | cons change rest ih =>
    intro i tree events nm nc t ev nm' nc' hrej hloop
    have hrej' : ∀ j (hj : j < rest.length), (rest.get ⟨j, hj⟩).ios_path = p →
        lowerS (resp (i + 1 + j)) ≠ "y" := by
      intro j hj hpj
      have := hrej (j + 1) (by simpa using Nat.succ_lt_succ hj) (by simpa using hpj)
      rw [show i + (j + 1) = i + 1 + j by omega] at this
      exact this
    by_cases hy : lowerS (resp i) = "y"
    · have hne : change.ios_path ≠ p := by
        intro heq
        exact hrej 0 (by simp) (by simpa using heq) (by simpa using hy)
      rw [sync_loop_cons_apply _ _ _ _ _ _ _ _ _ _ _ _ (by simp) hy] at hloop
      have hrec := ih (i + 1) _ _ _ _ t ev nm' nc' hrej' hloop
      have hstep := stepUpdates_preserve false change
        (apply_change change iosFiles tree pkg false).1 nm nc p hne
      exact ⟨hrec.1.trans hstep.1, hrec.2.trans hstep.2⟩
    · rw [sync_loop_cons_skip _ _ _ _ _ _ _ _ _ _ _ _ (by simp) (hq i) hy] at hloop
      exact ih (i + 1) _ _ _ _ t ev nm' nc' hrej' hloop

/-- The loop aborts at the first `q` response. -/
theorem sync_loop_abort_of_q (iosFiles : List (String × String)) (pkg : String)
    (resp : Nat → String) :
    ∀ (cs : List FileChange) (j i : Nat) (tree : List (String × String)) (events : List Event)
      (nm nc : List (String × String)) (hj : j < cs.length),
      lowerS (resp (i + j)) = "q" →
      (∀ k, k < j → lowerS (resp (i + k)) ≠ "q") →
      ∃ t ev, sync_loop iosFiles pkg false true resp i cs tree events nm nc =
        LoopRes.abort t ev := by
  intro cs
  induction cs with
  | nil =>
    intro j i tree events nm nc hj
    exact absurd hj (by simp)
  | cons change rest ih =>
    intro j i tree events nm nc hj hqj hqlt
    cases j with
    | zero =>
      rw [Nat.add_zero] at hqj
      exact ⟨tree, events, sync_loop_cons_q _ _ _ _ _ _ _ _ _ _ _ _ (by simp) hqj⟩
    | succ j' =>
      have hq0 : lowerS (resp i) ≠ "q" := by
        have := hqlt 0 (Nat.succ_pos j')
        rwa [Nat.add_zero] at this
      have hj' : j' < rest.length := by simpa using Nat.lt_of_succ_lt_succ (by simpa using hj)
      have hqj' : lowerS (resp (i + 1 + j')) = "q" := by
        rw [show i + 1 + j' = i + (j' + 1) by omega]
        exact hqj
      have hqlt' : ∀ k, k < j' → lowerS (resp (i + 1 + k)) ≠ "q" := by
        intro k hk
        rw [show i + 1 + k = i + (k + 1) by omega]
        exact hqlt (k + 1) (Nat.succ_lt_succ hk)
      by_cases hy : lowerS (resp i) = "y"
      · rw [sync_loop_cons_apply _ _ _ _ _ _ _ _ _ _ _ _ (by simp) hy]
        exact ih j' (i + 1) _ _ _ _ hj' hqj' hqlt'
      · rw [sync_loop_cons_skip _ _ _ _ _ _ _ _ _ _ _ _ (by simp) hq0 hy]
        exact ih j' (i + 1) _ _ _ _ hj' hqj' hqlt'

end LoopLemmas

/-! ## Bridging lemmas for `apply_change` -/

section ApplyLemmas

open sync_projects

/-- For a non-deleted change whose source file exists, `apply_change` is the
convert-and-write branch on the source content. -/
theorem apply_change_src (change : FileChange) (iosFiles tree : List (String × String))
    (package_name : String) (dry_run : Bool) (swift_content : String)
    (hndel : change.change_type ≠ "deleted")
    (hsrc : dget iosFiles change.ios_path = some swift_content) :
    apply_change change iosFiles tree package_name dry_run =
      apply_change_convert change tree package_name dry_run swift_content := by
  unfold apply_change
  rw [if_neg hndel, hsrc]

/-- A non-deleted change whose source file is missing is skipped with no
target-tree action. -/
theorem apply_change_no_src (change : FileChange) (iosFiles tree : List (String × String))
    (package_name : String) (dry_run : Bool)
    (hndel : change.change_type ≠ "deleted")
    (hsrc : dget iosFiles change.ios_path = none) :
    apply_change change iosFiles tree package_name dry_run = (none, tree, []) := by
  unfold apply_change
  rw [if_neg hndel, hsrc]

/-- A change classified as `test` is skipped with no target-tree action. -/
theorem apply_change_test_skip (change : FileChange) (iosFiles tree : List (String × String))
    (package_name : String) (dry_run : Bool) (swift_content : String)
    (hndel : change.change_type ≠ "deleted")
    (hsrc : dget iosFiles change.ios_path = some swift_content)
    (htest : classify_file change.ios_path swift_content = "test") :
    apply_change change iosFiles tree package_name dry_run = (none, tree, []) := by
  rw [apply_change_src change iosFiles tree package_name dry_run swift_content hndel hsrc]
  unfold apply_change_convert
  rw [if_pos htest]

end ApplyLemmas

/-! ## Claim theorems -/

open sync_projects in
/-- C1: for a `modified` change applied without dry-run whose target file
already exists, `apply_change` writes a single file: the conflict-delimited
combination of the existing content and the freshly generated content
(package declaration, provenance comment, rewritten text) when they differ,
and exactly the freshly generated content, unwrapped, when they coincide. -/
theorem c1_conflict_safety (change : FileChange) (iosFiles tree : List (String × String))
    (package_name swift_content file_type target_rel gen old : String)
    (hmod : change.change_type = "modified")
    (hsrc : dget iosFiles change.ios_path = some swift_content)
    (hft : classify_file change.ios_path swift_content = file_type)
    (htest : file_type ≠ "test")
    (htr : target_rel_of change file_type package_name = target_rel)
    (hgen : generated_content change.ios_path target_rel swift_content = gen)
    (hold : dget tree target_rel = some old) :
    (old ≠ gen →
      apply_change change iosFiles tree package_name false =
        (some target_rel, dset tree target_rel (conflictWrap old gen),
          [Event.wrote target_rel (conflictWrap old gen)]) ∧
      conflictWrap old gen = conflict_head ++ old ++ conflict_mid ++ gen ++ "\n") ∧
    (old = gen →
      apply_change change iosFiles tree package_name false =
        (some target_rel, dset tree target_rel gen, [Event.wrote target_rel gen])) := by
  subst hgen
  subst htr
  subst hft
  have hndel : change.change_type ≠ "deleted" := by rw [hmod]; decide
  rw [apply_change_src change iosFiles tree package_name false swift_content hndel hsrc]
  constructor
  · intro hne
    refine ⟨?_, rfl⟩
    unfold apply_change_convert
    rw [if_neg htest]
    simp [hmod, hold, hne]
  · intro heq
    unfold apply_change_convert
    rw [if_neg htest]
    simp [hmod, hold, heq]

/-- Witness for C1 at a concrete modified change with a hand-edited target. -/
theorem c1_conflict_safety_witness :
    sync_projects.apply_change
        (FileChange.mk "A.swift" (some "m/A.kt") "modified" (some "o") (some "n"))
        [("A.swift", "let x = 1\n")] [("m/A.kt", "whatever")] "com.app" false =
      (some "m/A.kt",
        dset [("m/A.kt", "whatever")] "m/A.kt"
          (sync_projects.conflictWrap "whatever"
            "package m\n\n// TODO: VERIFY - Synced from A.swift\n\nval x = 1\n"),
        [Event.wrote "m/A.kt"
          (sync_projects.conflictWrap "whatever"
            "package m\n\n// TODO: VERIFY - Synced from A.swift\n\nval x = 1\n")]) :=
  ((c1_conflict_safety
      (FileChange.mk "A.swift" (some "m/A.kt") "modified" (some "o") (some "n"))
      [("A.swift", "let x = 1\n")] [("m/A.kt", "whatever")]
      "com.app" "let x = 1\n" "other" "m/A.kt"
      "package m\n\n// TODO: VERIFY - Synced from A.swift\n\nval x = 1\n" "whatever"
      rfl (by decide) (by decide) (by decide) (by decide) (by decide) (by decide)).1
    (by decide)).1

open sync_projects in
/-- C10: for an `added` change applied without dry-run, an existing file at
the computed target path is overwritten directly with the freshly generated
content — no comparison with the existing content and no conflict
delimiters; the written content does not depend on the existing content. -/
theorem c10_added_overwrites (change : FileChange) (iosFiles tree : List (String × String))
    (package_name swift_content file_type target_rel gen old : String)
    (hadd : change.change_type = "added")
    (hsrc : dget iosFiles change.ios_path = some swift_content)
    (hft : classify_file change.ios_path swift_content = file_type)
    (htest : file_type ≠ "test")
    (htr : target_rel_of change file_type package_name = target_rel)
    (hgen : generated_content change.ios_path target_rel swift_content = gen)
    (hold : dget tree target_rel = some old) :
    apply_change change iosFiles tree package_name false =
      (some target_rel, dset tree target_rel gen, [Event.wrote target_rel gen]) := by
  subst hgen
  subst htr
  subst hft
  have hndel : change.change_type ≠ "deleted" := by rw [hadd]; decide
  rw [apply_change_src change iosFiles tree package_name false swift_content hndel hsrc]
  unfold apply_change_convert
  rw [if_neg htest]
  simp [hadd]

/-- Witness for C10: an `added` change overwrites an existing target file
with the generated content, ignoring what was there. -/
theorem c10_added_overwrites_witness :
    sync_projects.apply_change
        (FileChange.mk "A.swift" (some "m/A.kt") "added" none (some "n"))
        [("A.swift", "let x = 1\n")] [("m/A.kt", "HAND EDITED")] "com.app" false =
      (some "m/A.kt",
        dset [("m/A.kt", "HAND EDITED")] "m/A.kt"
          "package m\n\n// TODO: VERIFY - Synced from A.swift\n\nval x = 1\n",
        [Event.wrote "m/A.kt"
          "package m\n\n// TODO: VERIFY - Synced from A.swift\n\nval x = 1\n"]) :=
  c10_added_overwrites
    (FileChange.mk "A.swift" (some "m/A.kt") "added" none (some "n"))
    [("A.swift", "let x = 1\n")] [("m/A.kt", "HAND EDITED")]
    "com.app" "let x = 1\n" "other" "m/A.kt"
    "package m\n\n// TODO: VERIFY - Synced from A.swift\n\nval x = 1\n" "HAND EDITED"
    rfl (by decide) (by decide) (by decide) (by decide) (by decide) (by decide)

open sync_projects in
/-- C3 (amended): the persisted mapping anchors the target path only for
`modified` changes — `detect_changes` always sets `android_path := None` on
`added` changes, even when a mapping entry exists, so `apply_change`
recomputes the path via the resolver; for `modified` changes the mapping
entry (when present and nonempty) is the path used. -/
theorem c3_mapping_anchoring :
    (∀ (md5 : String → String) (iosFiles : List (String × String)) (state : SyncState)
       (c : FileChange), c ∈ detect_changes md5 iosFiles state →
         (c.change_type = "added" → c.android_path = none) ∧
         (c.change_type = "modified" → c.android_path = dget state.file_mapping c.ios_path)) ∧
    (∀ (change : FileChange) (iosFiles tree : List (String × String))
       (package_name swift_content ap : String),
         change.change_type ≠ "deleted" →
         dget iosFiles change.ios_path = some swift_content →
         classify_file change.ios_path swift_content ≠ "test" →
         change.android_path = some ap → ap ≠ "" →
         (apply_change change iosFiles tree package_name false).1 = some ap) ∧
    (∀ (change : FileChange) (iosFiles tree : List (String × String))
       (package_name swift_content : String),
         change.change_type ≠ "deleted" →
         dget iosFiles change.ios_path = some swift_content →
         classify_file change.ios_path swift_content ≠ "test" →
         change.android_path = none →
         (apply_change change iosFiles tree package_name false).1 =
           some (determine_android_path change.ios_path
             (classify_file change.ios_path swift_content) package_name)) := by
  refine ⟨?_, ?_, ?_⟩
  · intro md5 iosFiles state c hc
    simp only [detect_changes] at hc
    rcases List.mem_append.mp hc with h1 | h2
    · rcases List.mem_filterMap.mp h1 with ⟨rc, _, hfc⟩
      rcases (detect_entry_some state rc c).mp hfc with ⟨_, hceq⟩ | ⟨old, _, _, hceq⟩
      · subst hceq
        exact ⟨fun _ => rfl, fun h => by simp at h⟩
      · subst hceq
        exact ⟨fun h => by simp at h, fun _ => rfl⟩
    · rcases List.mem_map.mp h2 with ⟨rc, _, hceq⟩
      rw [← hceq]
      exact ⟨fun h => by simp at h, fun h => by simp at h⟩
  · intro change iosFiles tree package_name swift_content ap hndel hsrc htest hap hapne
    rw [apply_change_src change iosFiles tree package_name false swift_content hndel hsrc]
    have htr : target_rel_of change (classify_file change.ios_path swift_content)
        package_name = ap := by
      simp [target_rel_of, hap, hapne]
    unfold apply_change_convert
    rw [if_neg htest]
    simp [htr]
  · intro change iosFiles tree package_name swift_content hndel hsrc htest hap
    rw [apply_change_src change iosFiles tree package_name false swift_content hndel hsrc]
    have htr : target_rel_of change (classify_file change.ios_path swift_content)
        package_name = determine_android_path change.ios_path
          (classify_file change.ios_path swift_content) package_name := by
      simp [target_rel_of, hap]
    unfold apply_change_convert
    rw [if_neg htest]
    simp [htr]

/-- Witness for C3 (amended), exercising the modified-change anchoring at a
concrete mapped path. -/
theorem c3_mapping_anchoring_witness :
    (sync_projects.apply_change
        (FileChange.mk "A.swift" (some "custom/Anchor.kt") "modified" (some "o") (some "n"))
        [("A.swift", "let x = 1\n")] [] "com.app" false).1 = some "custom/Anchor.kt" :=
  c3_mapping_anchoring.2.1
    (FileChange.mk "A.swift" (some "custom/Anchor.kt") "modified" (some "o") (some "n"))
    [("A.swift", "let x = 1\n")] [] "com.app" "let x = 1\n" "custom/Anchor.kt"
    (by decide) (by decide) (by decide) rfl (by decide)

/-- Counterexample for C3 as stated: with a preserved `fileMapping` entry
for `A.swift` but no checksum entry, the change is detected as `added` with
`android_path = None`, and `apply_change` writes to the resolver-computed
path, not to the mapped path. -/
theorem c3_counterexample :
    sync_projects.detect_changes (fun _ => "h1") [("A.swift", "let x = 1\n")]
        (SyncState.mk "t0" none "i" "a" "com.app" [("A.swift", "custom/A.kt")] []) =
      [FileChange.mk "A.swift" none "added" none (some "h1")] ∧
    dget (SyncState.mk "t0" none "i" "a" "com.app" [("A.swift", "custom/A.kt")]
        []).file_mapping "A.swift" = some "custom/A.kt" ∧
    (sync_projects.apply_change (FileChange.mk "A.swift" none "added" none (some "h1"))
        [("A.swift", "let x = 1\n")] [] "com.app" false).1 =
      some "app/src/main/java/com/app/A.kt" ∧
    ("app/src/main/java/com/app/A.kt" : String) ≠ "custom/A.kt" := by decide

open sync_projects in
/-- C5: `detect_changes` classifies exactly as specified — a present path
absent from the checksums yields `added`, a differing hash yields
`modified`, a matching hash is omitted, a stored path absent from the
enumeration yields `deleted` — and no source path occurs in the result with
two different changes. -/
theorem c5_detect_classification (md5 : String → String) (iosFiles : List (String × String))
    (state : SyncState) (hnI : (dkeys iosFiles).Nodup)
    (hnC : (dkeys state.checksums).Nodup) :
    (∀ c, c ∈ detect_changes md5 iosFiles state ↔
      (∃ p cc, (p, cc) ∈ iosFiles ∧ dget state.checksums p = none ∧
        c = FileChange.mk p none "added" none (some (md5 cc))) ∨
      (∃ p cc old, (p, cc) ∈ iosFiles ∧ dget state.checksums p = some old ∧ old ≠ md5 cc ∧
        c = FileChange.mk p (dget state.file_mapping p) "modified" (some old) (some (md5 cc))) ∨
      (∃ p old, (p, old) ∈ state.checksums ∧ p ∉ dkeys iosFiles ∧
        c = FileChange.mk p (dget state.file_mapping p) "deleted" (some old) none)) ∧
    (∀ c₁, c₁ ∈ detect_changes md5 iosFiles state →
     ∀ c₂, c₂ ∈ detect_changes md5 iosFiles state →
       c₁.ios_path = c₂.ios_path → c₁ = c₂) :=
  ⟨fun c => detect_changes_mem md5 iosFiles state hnI c,
   detect_changes_unique md5 iosFiles state hnI hnC⟩

/-- Witness for C5 on a concrete tree: one added file, one deleted file,
one unchanged file omitted from the result. -/
theorem c5_detect_classification_witness :
    (FileChange.mk "New.swift" none "added" none (some "#new") ∈
      sync_projects.detect_changes (fun s => "#" ++ s)
        [("New.swift", "new"), ("Same.swift", "same")]
        (SyncState.mk "t0" none "i" "a" "com.app" []
          [("Same.swift", "#same"), ("Gone.swift", "#gone")])) ∧
    (FileChange.mk "Gone.swift" none "deleted" (some "#gone") none ∈
      sync_projects.detect_changes (fun s => "#" ++ s)
        [("New.swift", "new"), ("Same.swift", "same")]
        (SyncState.mk "t0" none "i" "a" "com.app" []
          [("Same.swift", "#same"), ("Gone.swift", "#gone")])) := by
  have h := c5_detect_classification (fun s => "#" ++ s)
    [("New.swift", "new"), ("Same.swift", "same")]
    (SyncState.mk "t0" none "i" "a" "com.app" []
      [("Same.swift", "#same"), ("Gone.swift", "#gone")])
    (by decide) (by decide)
  constructor
  · exact (h.1 _).mpr (Or.inl ⟨"New.swift", "new", by decide, by decide, by decide⟩)
  · exact (h.1 _).mpr (Or.inr (Or.inr ⟨"Gone.swift", "#gone", by decide, by decide, by decide⟩))

open convert_project in
/-- C7 (amended): the initial converter's rewrite pipeline
(`convert_project.convert_swift_to_kotlin`) performs the marker pass —
prepending exactly one advisory comment, first match winning in the order
`@Published`, `@State`, `@ObservedObject`, and none when no annotation
matches the substituted content. (The sync engine's own pipeline performs
no such pass; see the counterexample.) -/
theorem c7_markers_initial_converter (swift_content filename : String) :
    (searchP pat_published none (applyRules proj_rules swift_content.data) = true →
      convert_swift_to_kotlin swift_content filename =
        String.mk (marker_published.data ++ '\n' :: applyRules proj_rules swift_content.data)) ∧
    (searchP pat_published none (applyRules proj_rules swift_content.data) = false →
      searchP pat_state none (applyRules proj_rules swift_content.data) = true →
      convert_swift_to_kotlin swift_content filename =
        String.mk (marker_state.data ++ '\n' :: applyRules proj_rules swift_content.data)) ∧
    (searchP pat_published none (applyRules proj_rules swift_content.data) = false →
      searchP pat_state none (applyRules proj_rules swift_content.data) = false →
      searchP pat_observed none (applyRules proj_rules swift_content.data) = true →
      convert_swift_to_kotlin swift_content filename =
        String.mk (marker_observed.data ++ '\n' :: applyRules proj_rules swift_content.data)) ∧
    (searchP pat_published none (applyRules proj_rules swift_content.data) = false →
      searchP pat_state none (applyRules proj_rules swift_content.data) = false →
      searchP pat_observed none (applyRules proj_rules swift_content.data) = false →
      convert_swift_to_kotlin swift_content filename =
        String.mk (applyRules proj_rules swift_content.data)) := by
  refine ⟨?_, ?_, ?_, ?_⟩
  · intro h1
    simp [convert_swift_to_kotlin, addMarkers, proj_markers, h1]
  · intro h1 h2
    simp [convert_swift_to_kotlin, addMarkers, proj_markers, h1, h2]
  · intro h1 h2 h3
    simp [convert_swift_to_kotlin, addMarkers, proj_markers, h1, h2, h3]
  · intro h1 h2 h3
    simp [convert_swift_to_kotlin, addMarkers, proj_markers, h1, h2, h3]

/-- Witness for C7 (amended): a `@Published` input gets exactly the
MutableStateFlow marker prepended by the initial converter. -/
theorem c7_markers_initial_converter_witness :
    convert_project.convert_swift_to_kotlin "@Published var x = nil\n" "X" =
      String.mk (convert_project.marker_published.data ++ '\n' ::
        applyRules convert_project.proj_rules "@Published var x = nil\n".data) :=
  (c7_markers_initial_converter "@Published var x = nil\n" "X").1 (by decide)

/-- Counterexample for C7 as stated: the pipeline the sync engine actually
uses (`sync_projects.convert_swift_to_kotlin`) performs no second pass — on
content containing `@Published` (which the marker pattern matches) it
prepends no advisory comment at all. -/
theorem c7_counterexample :
    sync_projects.convert_swift_to_kotlin "@Published var name = nil\n" =
      "@Published var name = null\n" ∧
    searchP convert_project.pat_published none ("@Published var name = null\n".data) = true ∧
    strContains (sync_projects.convert_swift_to_kotlin "@Published var name = nil\n")
      "// TODO" = false := by decide

section RunLemmas

open sync_projects

/-- Every change surviving the `--files` filter was detected. -/
theorem filter_changes_subset (files : Option (List String)) (changes : List FileChange)
    (c : FileChange) (h : c ∈ filter_changes files changes) : c ∈ changes := by
  cases files with
  | none => exact h
  | some fs => exact (List.mem_filter.mp h).1

end RunLemmas

open sync_projects in
/-- C6: in an interactive non-dry run, answering `q` at any prompt (all
earlier prompts answered otherwise) stops the run before `save_sync_state`:
the persisted sync-state file is left unchanged (`saved = none`), no matter
how many changes were already applied. -/
theorem c6_abort_no_persist (md5 : String → String) (iosFiles : List (String × String))
    (state : SyncState) (tree : List (String × String)) (files : Option (List String))
    (resp : Nat → String) (now : String) (commit : Option String) (j : Nat)
    (hj : j < (filter_changes files (detect_changes md5 iosFiles state)).length)
    (hq : lowerS (resp j) = "q")
    (hfirst : ∀ k, k < j → lowerS (resp k) ≠ "q") :
    (sync_projects md5 iosFiles state tree files false true resp now commit).saved = none := by
  obtain ⟨t, ev, hab⟩ := sync_loop_abort_of_q iosFiles state.package_name resp
    (filter_changes files (detect_changes md5 iosFiles state)) j 0 tree []
    state.file_mapping state.checksums hj (by rwa [Nat.zero_add])
    (fun k hk => by rw [Nat.zero_add]; exact hfirst k hk)
  have hne : (filter_changes files (detect_changes md5 iosFiles state)).isEmpty = false := by
    cases hcs : filter_changes files (detect_changes md5 iosFiles state) with
    | nil => rw [hcs] at hj; simp at hj
    | cons a b => rfl
  simp [sync_projects, hne, hab]

/-- Witness for C6: one pending modified change, the first response is `q`;
nothing is persisted. -/
theorem c6_abort_no_persist_witness :
    (sync_projects.sync_projects (fun _ => "new") [("A.swift", "let x = 1\n")]
        (SyncState.mk "t0" none "i" "a" "com.app" [("A.swift", "m/A.kt")]
          [("A.swift", "old")])
        [("m/A.kt", "k")] none false true (fun _ => "q") "t1" none).saved = none :=
  c6_abort_no_persist (fun _ => "new") [("A.swift", "let x = 1\n")]
    (SyncState.mk "t0" none "i" "a" "com.app" [("A.swift", "m/A.kt")] [("A.swift", "old")])
    [("m/A.kt", "k")] none (fun _ => "q") "t1" none 0 (by decide) (by decide)
    (fun k hk => absurd hk (Nat.not_lt_zero k))

open sync_projects in
/-- C4 (amended): an interactively rejected change (response other than `y`,
with no `q` anywhere) leaves both the persisted checksum entry and the
mapping entry for its source path unchanged by the run — in particular a
rejected deletion remains tracked. (Changes skipped inside `apply_change`,
such as test files, do not enjoy this: their checksum entry is still
overwritten — see the counterexample.) -/
theorem c4_rejected_retained (md5 : String → String) (iosFiles : List (String × String))
    (state : SyncState) (tree : List (String × String)) (files : Option (List String))
    (resp : Nat → String) (now : String) (commit : Option String) (p : String)
    (st2 : SyncState)
    (hq : ∀ j, lowerS (resp j) ≠ "q")
    (hrej : ∀ j (hj : j < (filter_changes files (detect_changes md5 iosFiles state)).length),
      ((filter_changes files (detect_changes md5 iosFiles state)).get ⟨j, hj⟩).ios_path = p →
      lowerS (resp j) ≠ "y")
    (hsaved : (sync_projects md5 iosFiles state tree files false true resp now commit).saved =
      some st2) :
    dget st2.file_mapping p = dget state.file_mapping p ∧
    dget st2.checksums p = dget state.checksums p := by
  by_cases hne : (filter_changes files (detect_changes md5 iosFiles state)).isEmpty = true
  · simp [sync_projects, hne] at hsaved
  · cases hloop : sync_loop iosFiles state.package_name false true resp 0
        (filter_changes files (detect_changes md5 iosFiles state)) tree []
        state.file_mapping state.checksums with
    | abort t ev => simp [sync_projects, hne, hloop] at hsaved
    | done t ev nm nc =>
      simp [sync_projects, hne, hloop] at hsaved
      have hpres := sync_loop_rejected_preserve iosFiles state.package_name resp p hq
        (filter_changes files (detect_changes md5 iosFiles state)) 0 tree []
        state.file_mapping state.checksums t ev nm nc
        (fun j hj hpj => by rw [Nat.zero_add]; exact hrej j hj hpj) hloop
      have hm : st2.file_mapping = nm := by rw [← hsaved]
      have hc : st2.checksums = nc := by rw [← hsaved]
      rw [hm, hc]
      exact hpres

/-- Witness for C4 (amended): the single pending modified change is
rejected with `n`; the persisted entries for its path are unchanged. -/
theorem c4_rejected_retained_witness :
    dget (SyncState.mk "t1" none "i" "a" "com.app" [("A.swift", "m/A.kt")]
        [("A.swift", "old")]).file_mapping "A.swift" =
      dget (SyncState.mk "t0" none "i" "a" "com.app" [("A.swift", "m/A.kt")]
        [("A.swift", "old")]).file_mapping "A.swift" ∧
    dget (SyncState.mk "t1" none "i" "a" "com.app" [("A.swift", "m/A.kt")]
        [("A.swift", "old")]).checksums "A.swift" =
      dget (SyncState.mk "t0" none "i" "a" "com.app" [("A.swift", "m/A.kt")]
        [("A.swift", "old")]).checksums "A.swift" :=
  c4_rejected_retained (fun _ => "new") [("A.swift", "let x = 1\n")]
    (SyncState.mk "t0" none "i" "a" "com.app" [("A.swift", "m/A.kt")] [("A.swift", "old")])
    [("m/A.kt", "k")] none (fun _ => "n") "t1" none "A.swift"
    (SyncState.mk "t1" none "i" "a" "com.app" [("A.swift", "m/A.kt")] [("A.swift", "old")])
    (fun j => by show lowerS "n" ≠ "q"; decide)
    (fun j hj hpj => by show lowerS "n" ≠ "y"; decide) (by decide)

/-- Counterexample for C4 as stated: a `modified` change on a test-classified
file is skipped by `apply_change` (no write happens), yet the persisted
checksum entry for it is overwritten with the new checksum, so it is not
detected again on the next run. -/
theorem c4_counterexample :
    (sync_projects.sync_projects (fun _ => "new") [("FooTests.swift", "let a = 1")]
        (SyncState.mk "t0" none "i" "a" "com.app" [("FooTests.swift", "x/F.kt")]
          [("FooTests.swift", "old")])
        [] none false false (fun _ => "") "t1" none).events = [] ∧
    (sync_projects.sync_projects (fun _ => "new") [("FooTests.swift", "let a = 1")]
        (SyncState.mk "t0" none "i" "a" "com.app" [("FooTests.swift", "x/F.kt")]
          [("FooTests.swift", "old")])
        [] none false false (fun _ => "") "t1" none).saved =
      some (SyncState.mk "t1" none "i" "a" "com.app" [("FooTests.swift", "x/F.kt")]
        [("FooTests.swift", "new")]) ∧
    ("new" : String) ≠ "old" := by decide

open sync_projects in
/-- C9 (amended): a completed non-dry incremental sync preserves the
invariant "every `fileMapping` key is a `checksums` key"; but the initial
conversion does not establish it — `create_sync_state` writes an empty
checksums table alongside a possibly nonempty mapping (see the
counterexample). -/
theorem c9_mapping_checksum_invariant (md5 : String → String)
    (iosFiles : List (String × String)) (state : SyncState)
    (tree : List (String × String)) (files : Option (List String)) (interactive : Bool)
    (resp : Nat → String) (now : String) (commit : Option String) (st2 : SyncState)
    (hnI : (dkeys iosFiles).Nodup)
    (hmd5 : ∀ p cc, (p, cc) ∈ iosFiles → md5 cc ≠ "")
    (hsub : ∀ k, (dget state.file_mapping k).isSome → (dget state.checksums k).isSome)
    (hsaved : (sync_projects md5 iosFiles state tree files false interactive resp now
      commit).saved = some st2) :
    ∀ k, (dget st2.file_mapping k).isSome → (dget st2.checksums k).isSome := by
  by_cases hne : (filter_changes files (detect_changes md5 iosFiles state)).isEmpty = true
  · simp [sync_projects, hne] at hsaved
  · cases hloop : sync_loop iosFiles state.package_name false interactive resp 0
        (filter_changes files (detect_changes md5 iosFiles state)) tree []
        state.file_mapping state.checksums with
    | abort t ev => simp [sync_projects, hne, hloop] at hsaved
    | done t ev nm nc =>
      simp [sync_projects, hne, hloop] at hsaved
      have hck : ∀ c ∈ filter_changes files (detect_changes md5 iosFiles state),
          c.change_type = "deleted" ∨ ∃ ck, c.new_checksum = some ck ∧ ck ≠ "" := by
        intro c hc
        rcases (detect_changes_mem md5 iosFiles state hnI c).mp
            (filter_changes_subset files _ c hc) with
          ⟨p, cc, hmem, _, hceq⟩ | ⟨p, cc, old, hmem, _, _, hceq⟩ | ⟨p, old, _, _, hceq⟩
        · exact Or.inr ⟨md5 cc, by rw [hceq], hmd5 p cc hmem⟩
        · exact Or.inr ⟨md5 cc, by rw [hceq], hmd5 p cc hmem⟩
        · exact Or.inl (by rw [hceq])
      have hinv := sync_loop_mapInv iosFiles state.package_name interactive resp
        (filter_changes files (detect_changes md5 iosFiles state)) 0 tree []
        state.file_mapping state.checksums t ev nm nc hck hsub hloop
      have hm : st2.file_mapping = nm := by rw [← hsaved]
      have hc : st2.checksums = nc := by rw [← hsaved]
      rw [hm, hc]
      exact hinv

/-- Witness for C9 (amended), on a run that adds one file to an empty state:
the mapped key has a checksum entry in the saved state. -/
theorem c9_mapping_checksum_invariant_witness :
    (dget (SyncState.mk "t1" none "i" "a" "com.app"
      [("A.swift", "app/src/main/java/com/app/A.kt")]
      [("A.swift", "#let x = 1\n")]).checksums "A.swift").isSome :=
  c9_mapping_checksum_invariant (fun s => "#" ++ s) [("A.swift", "let x = 1\n")]
    (SyncState.mk "t0" none "i" "a" "com.app" [] []) [] none false (fun _ => "") "t1" none
    (SyncState.mk "t1" none "i" "a" "com.app"
      [("A.swift", "app/src/main/java/com/app/A.kt")] [("A.swift", "#let x = 1\n")])
    (by decide)
    (fun p cc hm => by
      intro h
      have h2 := congrArg String.length h
      rw [String.length_append] at h2
      simp at h2
      exact absurd h2.1 (by decide))
    (fun k hk => by simp [dget] at hk) (by decide) "A.swift" (by decide)

/-- Counterexample for C9 as stated: the initial conversion's
`create_sync_state` persists a nonempty `fileMapping` with an empty
`checksums` table, so the invariant fails right after the run that creates
the state. -/
theorem c9_counterexample :
    (convert_project.create_sync_state "t0" "/ios" "/android" "com.app"
        [("A.swift", "app/src/main/java/com/app/model/A.kt")]).checksums = [] ∧
    (dget (convert_project.create_sync_state "t0" "/ios" "/android" "com.app"
        [("A.swift", "app/src/main/java/com/app/model/A.kt")]).file_mapping
      "A.swift").isSome = true ∧
    ¬ (∀ k, (dget (convert_project.create_sync_state "t0" "/ios" "/android" "com.app"
          [("A.swift", "app/src/main/java/com/app/model/A.kt")]).file_mapping k).isSome →
        (dget (convert_project.create_sync_state "t0" "/ios" "/android" "com.app"
          [("A.swift", "app/src/main/java/com/app/model/A.kt")]).checksums k).isSome) := by
  refine ⟨rfl, by decide, ?_⟩
  intro h
  have := h "A.swift" (by decide)
  simp [convert_project.create_sync_state, dget] at this

open sync_projects in
/-- C2: once a non-interactive, non-dry sync has persisted its snapshot and
no source file changes, change detection against the persisted snapshot is
empty and a second identical run performs zero target-tree writes and
deletions (and persists nothing). -/
theorem c2_idempotence (md5 : String → String) (iosFiles : List (String × String))
    (state : SyncState) (tree : List (String × String)) (resp resp' : Nat → String)
    (now now' : String) (commit commit' : Option String) (st2 : SyncState)
    (hnI : (dkeys iosFiles).Nodup) (hnC : (dkeys state.checksums).Nodup)
    (hmd5 : ∀ p cc, (p, cc) ∈ iosFiles → md5 cc ≠ "")
    (hsaved : (sync_projects md5 iosFiles state tree none false false resp now commit).saved =
      some st2) :
    detect_changes md5 iosFiles st2 = [] ∧
    ∀ tree', sync_projects md5 iosFiles st2 tree' none false false resp' now' commit' =
      RunOut.mk tree' [] none := by
  by_cases hne : (filter_changes none (detect_changes md5 iosFiles state)).isEmpty = true
  · simp [sync_projects, hne] at hsaved
  · obtain ⟨t, ev, nm, nc, hloop⟩ := sync_loop_noninteractive_done iosFiles
      state.package_name false resp (filter_changes none (detect_changes md5 iosFiles state))
      0 tree [] state.file_mapping state.checksums
    have hfc : filter_changes none (detect_changes md5 iosFiles state) =
        detect_changes md5 iosFiles state := rfl
    rw [hfc] at hloop
    have hne' : detect_changes md5 iosFiles state ≠ [] := by
      intro hnil
      exact hne (by simp [filter_changes, hnil])
    simp [sync_projects, hne, filter_changes, hloop] at hsaved
    rw [if_neg hne'] at hsaved
    simp at hsaved
    have hchar := sync_loop_final_nc md5 iosFiles state state.package_name resp tree
      hnI hnC hmd5 t ev nm nc hloop
    have hc2 : st2.checksums = nc := by rw [← hsaved]
    have hempty : detect_changes md5 iosFiles st2 = [] := by
      rw [List.eq_nil_iff_forall_not_mem]
      intro c hc
      rcases (detect_changes_mem md5 iosFiles st2 hnI c).mp hc with
        ⟨p, cc, hmem, ho, _⟩ | ⟨p, cc, old, hmem, ho, hne', _⟩ | ⟨p, old, hmem2, hnot, _⟩
      · rw [hc2] at ho
        rw [hchar p, dget_of_mem_nodup iosFiles p cc hnI hmem] at ho
        have ho2 : some (md5 cc) = none := ho
        exact Option.noConfusion ho2
      · rw [hc2] at ho
        rw [hchar p, dget_of_mem_nodup iosFiles p cc hnI hmem] at ho
        have ho2 : some (md5 cc) = some old := ho
        exact hne' (Option.some.inj ho2).symm
      · rw [hc2] at hmem2
        have hsome := dget_isSome_of_mem nc p old hmem2
        rw [hchar p] at hsome
        cases o : dget iosFiles p with
        | none => rw [o] at hsome; simp at hsome
        | some cc =>
          exact hnot ((dget_isSome_iff iosFiles p).mp (by simp [o]))
    refine ⟨hempty, ?_⟩
    intro tree'
    simp [sync_projects, filter_changes, hempty]

/-- Witness for C2: one file added on the first run; the second run detects
nothing, writes nothing and persists nothing. -/
theorem c2_idempotence_witness :
    sync_projects.detect_changes (fun s => "#" ++ s) [("A.swift", "let x = 1\n")]
      (SyncState.mk "t1" none "i" "a" "com.app"
        [("A.swift", "app/src/main/java/com/app/A.kt")] [("A.swift", "#let x = 1\n")]) = [] ∧
    sync_projects.sync_projects (fun s => "#" ++ s) [("A.swift", "let x = 1\n")]
      (SyncState.mk "t1" none "i" "a" "com.app"
        [("A.swift", "app/src/main/java/com/app/A.kt")] [("A.swift", "#let x = 1\n")])
      [("app/src/main/java/com/app/A.kt", "k")] none false false (fun _ => "") "t2" none =
      sync_projects.RunOut.mk [("app/src/main/java/com/app/A.kt", "k")] [] none :=
  ⟨(c2_idempotence (fun s => "#" ++ s) [("A.swift", "let x = 1\n")]
      (SyncState.mk "t0" none "i" "a" "com.app" [] []) [] (fun _ => "") (fun _ => "")
      "t1" "t2" none none
      (SyncState.mk "t1" none "i" "a" "com.app"
        [("A.swift", "app/src/main/java/com/app/A.kt")] [("A.swift", "#let x = 1\n")])
      (by decide) (by decide)
      (fun p cc hm => by
        intro h
        have h2 := congrArg String.length h
        rw [String.length_append] at h2
        simp at h2
        exact absurd h2.1 (by decide))
      (by decide)).1,
   (c2_idempotence (fun s => "#" ++ s) [("A.swift", "let x = 1\n")]
      (SyncState.mk "t0" none "i" "a" "com.app" [] []) [] (fun _ => "") (fun _ => "")
      "t1" "t2" none none
      (SyncState.mk "t1" none "i" "a" "com.app"
        [("A.swift", "app/src/main/java/com/app/A.kt")] [("A.swift", "#let x = 1\n")])
      (by decide) (by decide)
      (fun p cc hm => by
        intro h
        have h2 := congrArg String.length h
        rw [String.length_append] at h2
        simp at h2
        exact absurd h2.1 (by decide))
      (by decide)).2 [("app/src/main/java/com/app/A.kt", "k")]⟩

open sync_projects in
/-- C8 (amended): a non-existent source file causes only that change to be
skipped (`None`, no action) and the loop continues with the remaining
changes; but an actual I/O error — an unreadable existing source file, an
unreadable or unwritable target — is caught nowhere in `apply_change` or the
loop, so it propagates and terminates the entire run (see the
counterexample). -/
theorem c8_io_error_semantics :
    (∀ (change : FileChange) (iosFiles : List (String × String)) (srcR : String → Bool)
       (tree : List (String × String)) (tgtR tgtW : String → Bool) (pkg : String)
       (dry : Bool),
       change.change_type ≠ "deleted" → dget iosFiles change.ios_path = none →
       apply_changeE change iosFiles srcR tree tgtR tgtW pkg dry =
         Except.ok (none, tree, [])) ∧
    (∀ (change : FileChange) (iosFiles : List (String × String)) (srcR : String → Bool)
       (tree : List (String × String)) (tgtR tgtW : String → Bool) (pkg : String)
       (e : String) (interactive : Bool) (resp : Nat → String) (i : Nat)
       (rest : List FileChange) (events : List Event) (nm nc : List (String × String)),
       apply_changeE change iosFiles srcR tree tgtR tgtW pkg false = Except.error e →
       (interactive = false ∨ lowerS (resp i) = "y") →
       sync_loopE iosFiles srcR tgtR tgtW pkg false interactive resp i (change :: rest)
         tree events nm nc = Except.error (e, events)) ∧
    (∀ (change : FileChange) (iosFiles : List (String × String)) (srcR : String → Bool)
       (tree : List (String × String)) (tgtR tgtW : String → Bool) (pkg : String)
       (resp : Nat → String) (i : Nat) (rest : List FileChange) (events : List Event)
       (nm nc : List (String × String)),
       change.change_type ≠ "deleted" → dget iosFiles change.ios_path = none →
       sync_loopE iosFiles srcR tgtR tgtW pkg false false resp i (change :: rest)
         tree events nm nc =
       sync_loopE iosFiles srcR tgtR tgtW pkg false false resp (i + 1) rest
         tree events (stepUpdates false change none nm nc).1
         (stepUpdates false change none nm nc).2) := by
  refine ⟨?_, ?_, ?_⟩
  · intro change iosFiles srcR tree tgtR tgtW pkg dry hndel hsrc
    unfold apply_changeE
    rw [if_neg hndel, hsrc]
  · intro change iosFiles srcR tree tgtR tgtW pkg e interactive resp i rest events nm nc
      happ hcond
    rcases hcond with hIfalse | hy
    · subst hIfalse
      simp [sync_loopE, happ]
    · cases hIb : interactive with
      | false => simp [sync_loopE, happ]
      | true => simp [sync_loopE, hy, happ]
  · intro change iosFiles srcR tree tgtR tgtW pkg resp i rest events nm nc hndel hsrc
    have happ : apply_changeE change iosFiles srcR tree tgtR tgtW pkg false =
        Except.ok (none, tree, []) := by
      unfold apply_changeE
      rw [if_neg hndel, hsrc]
    simp [sync_loopE, happ]

/-- Witness for C8 (amended): a missing source file is skipped per-file. -/
theorem c8_io_error_semantics_witness :
    sync_projects.apply_changeE (FileChange.mk "Missing.swift" none "added" none (some "h"))
      [] (fun _ => true) [] (fun _ => true) (fun _ => true) "com.app" false =
      Except.ok (none, [], []) :=
  c8_io_error_semantics.1 (FileChange.mk "Missing.swift" none "added" none (some "h"))
    [] (fun _ => true) [] (fun _ => true) (fun _ => true) "com.app" false
    (by decide) rfl

/-- Counterexample for C8 as stated: with the first change's source file
present but unreadable, the whole run terminates with an uncaught read
error — the second pending change is never processed and nothing is
persisted — instead of skipping only that file and continuing. -/
theorem c8_counterexample :
    sync_projects.sync_projectsE (fun _ => "new")
        [("A.swift", "let a = 1\n"), ("B.swift", "let b = 2\n")]
        (fun p => p != "A.swift") (fun _ => true) (fun _ => true)
        (SyncState.mk "t0" none "i" "a" "com.app" []
          [("A.swift", "oldA"), ("B.swift", "oldB")])
        [] none false false (fun _ => "") "t1" none =
      Except.error ("read source: A.swift", []) := by rfl
